import Mathlib

/-!
# The resilient response-ingestion layer, verified

A shallow embedding of the response-ingestion core of the wire-verify
dashboard: the multi-strategy JSON parser (`robustJSONParse` in
`src/lib/json-parser.ts`), the SSE stream reassembler (`parseSSEStream` /
`parseSSEEvent` in `src/lib/event-parser.ts`) and the response normalizer
(`normalizeResponse` in the AI-agent utility module).

JavaScript runtime values reachable in this layer are modelled by `JValue`:

* numbers are exact decimals `m * 10 ^ e` — no IEEE-754 rounding is modelled;
  `JSON.parse` numeric literals map to their exact decimal value, and
  `String(n)` prints plain decimal notation, which agrees with JavaScript for
  magnitudes within `2 ^ 53` and at least `10 ^ (-6)` (outside those regimes
  JavaScript switches to exponential display, which the claims never touch);
* strings are sequences of Unicode scalar values (lone UTF-16 surrogates are
  outside the model);
* arrays carry their elements and their named, non-index properties, so that
  property assignment on an array — which the SSE event parser performs — is
  representable; index and `length` reads are not modelled because every
  property the source reads or writes is a fixed non-numeric name;
* `undefined` is `Option.none` at the positions where the source can meet it
  (absent properties, absent arguments, the guard of `normalizeResponse`).

Exceptions are modelled as values: a `JSON.parse` SyntaxError is `none`, and
the strict-mode TypeError raised by creating a property on a primitive is
`Except.error "TypeError"`.
-/

namespace WireVerify

/-- A JavaScript runtime value, as reachable in the ingestion layer. -/
inductive JValue where
  | null
  | bool (b : Bool)
  | num (m : Int) (e : Int)
  | str (s : String)
  | arr (elems : List JValue) (props : List (String × JValue))
  | obj (fields : List (String × JValue))

/-! ## Property access and assignment -/

/-- Assoc-list lookup: the value of the first binding of `k`. -/
def getField : List (String × JValue) → String → Option JValue
  | [], _ => none
  | (k', v) :: rest, k => if k' = k then some v else getField rest k

/-- JS property write on a field list: overwrite the first binding of `k` in
    place, else append — insertion order is kept, as JS objects keep it. -/
def setField : List (String × JValue) → String → JValue → List (String × JValue)
  | [], k, v => [(k, v)]
  | (k', v') :: rest, k, v =>
      if k' = k then (k, v) :: rest else (k', v') :: setField rest k v

/-- Property read `v[k]` for the fixed non-numeric key names this layer uses:
    object fields, array named properties; `undefined` (`none`) on primitives
    and missing keys. -/
def jsGet : JValue → String → Option JValue
  | .obj fs, k => getField fs k
  | .arr _ ps, k => getField ps k
  | _, _ => none

/-- The `in` operator for the fixed non-numeric key names this layer tests. -/
def jsHas (v : JValue) (k : String) : Bool := (jsGet v k).isSome

/-- Strict-mode property write `v[k] = x`: rebinds on objects and arrays,
    raises TypeError (`none`) on primitives. -/
def jsSet : JValue → String → JValue → Option JValue
  | .obj fs, k, x => some (.obj (setField fs k x))
  | .arr es ps, k, x => some (.arr es (setField ps k x))
  | _, _, _ => none

/-! ## Truthiness and string conversion -/

/-- JavaScript truthiness. -/
def jsTruthy : JValue → Bool
  | .null => false
  | .bool b => b
  | .num m _ => m != 0
  | .str s => s != ""
  | .arr _ _ => true
  | .obj _ => true

/-- Truthiness of a property read, `undefined` being falsy. -/
def jsTruthyOpt : Option JValue → Bool
  | none => false
  | some v => jsTruthy v

/-- `a || b` where `a` is a property read (absent = `undefined` = falsy). -/
def jsOrJ (a : Option JValue) (b : JValue) : JValue :=
  match a with
  | some x => if jsTruthy x then x else b
  | none => b

/-- `a || b` on optional strings, `""` and `undefined` being falsy. -/
def jsOrStr (a : Option String) (b : String) : String :=
  match a with
  | some s => if s = "" then b else s
  | none => b

/-! ## JS whitespace, trimming and splitting

`String.prototype.trim` and the regex class `\s` remove/match the same set:
WhiteSpace (tab, vertical tab, form feed, space, no-break space, BOM, the
Unicode space separators) plus the line terminators. -/

/-- The JS WhiteSpace + LineTerminator set (`\s`, and what `trim` strips):
    tab, LF, VT, FF, CR, space, NBSP, Ogham space, the U+2000..U+200A
    spaces, LS, PS, NNBSP, MMSP, ideographic space, and the BOM. -/
def isJsWs (c : Char) : Bool :=
  let n := c.toNat
  (0x09 ≤ n && n ≤ 0x0D) || n == 0x20 || n == 0xA0 || n == 0x1680 ||
  (0x2000 ≤ n && n ≤ 0x200A) || n == 0x2028 || n == 0x2029 ||
  n == 0x202F || n == 0x205F || n == 0x3000 || n == 0xFEFF

/-- Drop the leading run of JS whitespace. -/
def dropJsWs : List Char → List Char
  | [] => []
  | c :: cs => if isJsWs c then dropJsWs cs else c :: cs

/-- The leading run of JS whitespace and the remainder (`\s*` then the rest). -/
def spanJsWs : List Char → List Char × List Char
  | [] => ([], [])
  | c :: cs =>
      if isJsWs c then
        let (w, r) := spanJsWs cs
        (c :: w, r)
      else ([], c :: cs)

/-- `String.prototype.trim` on a character list. -/
def jsTrimL (l : List Char) : List Char :=
  ((dropJsWs (dropJsWs l).reverse)).reverse

/-- `String.prototype.trim`. -/
def jsTrim (s : String) : String := ⟨jsTrimL s.data⟩

/-- `String.prototype.startsWith`. -/
def jsStartsWith (s pat : String) : Bool := pat.data.isPrefixOf s.data

/-- `String.prototype.substring(n)`. -/
def jsDropStr (s : String) (n : Nat) : String := ⟨s.data.drop n⟩

/-- `String.prototype.split('\n')` on a character list. -/
def splitOnNL : List Char → List (List Char)
  | [] => [[]]
  | '\n' :: rest => [] :: splitOnNL rest
  | c :: rest =>
      match splitOnNL rest with
      | l :: ls => (c :: l) :: ls
      | [] => [[c]]

/-- `Array.prototype.join('\n')`. -/
def joinNL : List String → String
  | [] => ""
  | [s] => s
  | s :: rest => s ++ "\n" ++ joinNL rest

/-! ## Size of a value (termination measure for the recursive normalizer) -/

mutual

/-- Size of a value: one per node. -/
def jsize : JValue → Nat
  | .null => 1
  | .bool _ => 1
  | .num _ _ => 1
  | .str _ => 1
  | .arr es ps => 1 + jsizeL es + jsizeF ps
  | .obj fs => 1 + jsizeF fs

/-- Total size of a list of values. -/
def jsizeL : List JValue → Nat
  | [] => 0
  | v :: rest => jsize v + jsizeL rest

/-- Total size of the values of a field list. -/
def jsizeF : List (String × JValue) → Nat
  | [] => 0
  | kv :: rest => jsize kv.2 + jsizeF rest

end

theorem getField_jsize_le :
    ∀ (fs : List (String × JValue)) (k : String) (v : JValue),
      getField fs k = some v → jsize v ≤ jsizeF fs := by
  intro fs
  induction fs with
  | nil => intro k v h; simp [getField] at h
  | cons kv rest ih =>
      intro k v h
      simp only [getField] at h
      split at h
      · cases h; simp [jsizeF]
      · have := ih k v h
        simp only [jsizeF]
        omega

theorem jsGet_jsize_lt (v r : JValue) (k : String) (h : jsGet v k = some r) :
    jsize r < jsize v := by
  cases v <;> simp only [jsGet] at h <;> try exact absurd h (by simp)
  case arr es ps =>
    have := getField_jsize_le ps k r h
    simp only [jsize]; omega
  case obj fs =>
    have := getField_jsize_le fs k r h
    simp only [jsize]; omega

/-! ## Number printing: the `String(n)` model -/

/-- The character of the digit `k % 10`. -/
def digitChar10 (k : Nat) : Char := Char.ofNat ('0'.toNat + k % 10)

/-- Decimal digit characters of `n`, most significant first, fuel-indexed so
    that concrete values kernel-reduce; `natChars` supplies ample fuel. -/
def natCharsF : Nat → Nat → List Char
  | _, 0 => []
  | n, fuel + 1 =>
      if n < 10 then [digitChar10 n] else natCharsF (n / 10) fuel ++ [digitChar10 n]

/-- Decimal digit characters of `n`, most significant first. -/
def natChars (n : Nat) : List Char := natCharsF n (n + 1)

theorem natCharsF_irrel (n : Nat) :
    ∀ f f', n < f → n < f' → natCharsF n f = natCharsF n f' := by
  induction n using Nat.strong_induction_on with
  | _ n ih =>
      intro f f' hf hf'
      cases f with
      | zero => omega
      | succ f =>
          cases f' with
          | zero => omega
          | succ f' =>
              simp only [natCharsF]
              by_cases h10 : n < 10
              · simp [h10]
              · simp only [if_neg h10]
                rw [ih (n / 10) (by omega) f f' (by omega) (by omega)]

/-- The recurrence of `natChars`. -/
theorem natChars_unfold (n : Nat) :
    natChars n = if n < 10 then [digitChar10 n] else natChars (n / 10) ++ [digitChar10 n] := by
  show natCharsF n (n + 1) = _
  simp only [natCharsF]
  by_cases h10 : n < 10
  · simp [h10]
  · simp only [if_neg h10]
    rw [natCharsF_irrel (n / 10) n (n / 10 + 1) (by omega) (by omega)]
    rfl

/-- Trailing-zero stripping of an exact decimal, fuel-indexed (`normNum`
    supplies ample fuel: the exponent rises toward zero each step). -/
def normNumF : Nat → Int → Int → Int × Int
  | 0, m, e => (m, e)
  | fuel + 1, m, e =>
      if m = 0 then (0, 0)
      else if e < 0 ∧ m % 10 = 0 then normNumF fuel (m / 10) (e + 1)
      else (m, e)

/-- Normalize an exact decimal: zero becomes `(0, 0)`, and a mantissa with a
    negative exponent loses its trailing zeros — the digits JavaScript would
    actually print. -/
def normNum (m e : Int) : Int × Int := normNumF (e.natAbs + 1) m e

theorem normNumF_irrel : ∀ (k : Nat) (m e : Int), e.natAbs = k →
    ∀ f f', k < f → k < f' → normNumF f m e = normNumF f' m e := by
  intro k
  induction k using Nat.strong_induction_on with
  | _ k ih =>
      intro m e hk f f' hf hf'
      cases f with
      | zero => omega
      | succ f =>
          cases f' with
          | zero => omega
          | succ f' =>
              simp only [normNumF]
              split
              · rfl
              · split
                · rename_i hm hcond
                  exact ih (e + 1).natAbs (by omega) (m / 10) (e + 1) rfl f f'
                    (by omega) (by omega)
                · rfl

/-- The recurrence of `normNum`. -/
theorem normNum_unfold (m e : Int) :
    normNum m e =
      if m = 0 then (0, 0)
      else if e < 0 ∧ m % 10 = 0 then normNum (m / 10) (e + 1)
      else (m, e) := by
  show normNumF (e.natAbs + 1) m e = _
  simp only [normNumF]
  split
  · rfl
  · split
    · rename_i hm hcond
      exact normNumF_irrel (e + 1).natAbs (m / 10) (e + 1) rfl e.natAbs
        ((e + 1).natAbs + 1) (by omega) (by omega)
    · rfl

/-- `String(n)` for an exact decimal `m * 10 ^ e`, in plain (non-exponential)
    notation: sign, digits, and a decimal point when the normalized exponent
    is negative. -/
def numChars (m0 e0 : Int) : List Char :=
  let p := normNum m0 e0
  let m := p.1
  let e := p.2
  let sign : List Char := if m < 0 then ['-'] else []
  if 0 ≤ e then sign ++ natChars m.natAbs ++ List.replicate e.toNat '0'
  else
    let ds := natChars m.natAbs
    let k := (-e).toNat
    if k < ds.length then
      sign ++ ds.take (ds.length - k) ++ '.' :: ds.drop (ds.length - k)
    else
      sign ++ '0' :: '.' :: (List.replicate (k - ds.length) '0' ++ ds)

/-- `String(n)` on a modelled number. -/
def jsNumToString (m e : Int) : String := ⟨numChars m e⟩

/-! ## `String(v)`: JS string conversion of the values this layer meets -/

mutual

/-- `String(v)`. Arrays convert through `join(',')`, objects print
    `[object Object]`. -/
def jsToString : JValue → String
  | .null => "null"
  | .bool b => if b then "true" else "false"
  | .num m e => jsNumToString m e
  | .str s => s
  | .arr es _ => joinElems es
  | .obj _ => "[object Object]"
termination_by v => (sizeOf v, 0)

/-- `Array.prototype.join(',')` over converted elements. -/
def joinElems : List JValue → String
  | [] => ""
  | [v] => elemStr v
  | v :: rest => elemStr v ++ "," ++ joinElems rest
termination_by es => (sizeOf es, 2)

/-- One joined element: `null` (and `undefined`) join as the empty string. -/
def elemStr : JValue → String
  | .null => ""
  | v => jsToString v
termination_by v => (sizeOf v, 1)

end

/-! ## The `JSON.parse` model

A strict RFC-8259 parser over character lists: JSON whitespace only
(`space`, tab, LF, CR), no trailing garbage, leading-zero and bare-sign
numbers rejected, control characters inside strings rejected, the exact JSON
escape set (with `\uXXXX`, surrogate pairs combined into one scalar value —
a lone surrogate, which JavaScript would keep as a bare code unit, is outside
the model and fails). Nesting recursion is on fuel; `jsonParse` supplies more
fuel than any input can consume. -/

/-- JSON (not JS) whitespace. -/
def isJsonWs (c : Char) : Bool := c == ' ' || c == '\t' || c == '\n' || c == '\r'

/-- Drop leading JSON whitespace. -/
def skipJsonWs : List Char → List Char
  | [] => []
  | c :: cs => if isJsonWs c then skipJsonWs cs else c :: cs

/-- ASCII decimal digit? -/
def isDigitC (c : Char) : Bool := '0' ≤ c && c ≤ '9'

/-- The leading digit run and the remainder. -/
def takeDigitRun : List Char → List Char × List Char
  | [] => ([], [])
  | c :: cs =>
      if isDigitC c then
        let (ds, r) := takeDigitRun cs
        (c :: ds, r)
      else ([], c :: cs)

/-- The natural number a digit run denotes. -/
def digitRunVal (ds : List Char) : Nat :=
  ds.foldl (fun a c => a * 10 + (c.toNat - '0'.toNat)) 0

/-- Value of one hex digit. -/
def hexVal (c : Char) : Option Nat :=
  let n := c.toNat
  if 0x30 ≤ n ∧ n ≤ 0x39 then some (n - 0x30)
  else if 0x61 ≤ n ∧ n ≤ 0x66 then some (n - 0x61 + 10)
  else if 0x41 ≤ n ∧ n ≤ 0x46 then some (n - 0x41 + 10)
  else none

/-- Value of a `\uXXXX` quadruple. -/
def hexQuad (a b c d : Char) : Option Nat := do
  let va ← hexVal a
  let vb ← hexVal b
  let vc ← hexVal c
  let vd ← hexVal d
  return ((va * 16 + vb) * 16 + vc) * 16 + vd

/-- The single-character JSON escapes. -/
def jsonUnescape : Char → Option Char
  | '"' => some '"'
  | '\\' => some '\\'
  | '/' => some '/'
  | 'b' => some '\x08'
  | 'f' => some '\x0c'
  | 'n' => some '\n'
  | 'r' => some '\r'
  | 't' => some '\t'
  | _ => none

/-- What stands at the head of a JSON string body: the closing quote, one
    decoded character (raw, escaped, or a `\uXXXX` — surrogate pairs
    combined), or a syntax error. -/
inductive StrUnit where
  | close (rest : List Char)
  | unit (c : Char) (rest : List Char)
  | bad

/-- A high surrogate was read: the low half of the pair must follow as
    another `\uXXXX` escape. -/
def nextStrUnitLow (n : Nat) : List Char → StrUnit
  | s1 :: s2 :: a2 :: b2 :: c2 :: d2 :: rest4 =>
      if s1 = '\\' && s2 = 'u' then
        match hexQuad a2 b2 c2 d2 with
        | some n2 =>
            if 0xDC00 ≤ n2 && n2 ≤ 0xDFFF then
              .unit (Char.ofNat (0x10000 + (n - 0xD800) * 0x400 + (n2 - 0xDC00))) rest4
            else .bad
        | none => .bad
      else .bad
  | _ => .bad

/-- Decode one unit of a JSON string body: raw characters must be at least
    `U+0020`; escapes per `jsonUnescape` and `\uXXXX`. -/
def nextStrUnit : List Char → StrUnit
  | [] => .bad
  | ch :: rest =>
      if ch = '"' then .close rest
      else if ch = '\\' then
        match rest with
        | [] => .bad
        | e :: rest2 =>
            if e = 'u' then
              (match rest2 with
              | a :: b :: c :: d :: rest3 =>
                  (match hexQuad a b c d with
                   | none => .bad
                   | some n =>
                     if n < 0xD800 || 0xDFFF < n then .unit (Char.ofNat n) rest3
                     else if n ≤ 0xDBFF then nextStrUnitLow n rest3
                     else .bad)
              | _ => .bad)
            else
              match jsonUnescape e with
              | some ch2 => .unit ch2 rest2
              | none => .bad
      else if ch.toNat < 0x20 then .bad
      else .unit ch rest

/-- The string-body loop, fuel-indexed (each unit consumes at least one
    character, so the wrapper's fuel never runs out). -/
def parseJStrAuxF : Nat → List Char → List Char → Option (String × List Char)
  | 0, _, _ => none
  | fuel + 1, acc, l =>
      match nextStrUnit l with
      | .close rest => some (⟨acc.reverse⟩, rest)
      | .unit c rest => parseJStrAuxF fuel (c :: acc) rest
      | .bad => none

/-- The body of a JSON string after the opening quote. -/
def parseJStrAux (acc : List Char) (l : List Char) : Option (String × List Char) :=
  parseJStrAuxF (l.length + 1) acc l

/-- The optional exponent part and assembly of a JSON number: mantissa from
    the integer and fraction digits, exponent from the marker minus the
    fraction length. -/
def parseJNumTail (neg : Bool) (ids fds : List Char) (cs : List Char) :
    Option ((Int × Int) × List Char) :=
  let mag : Int := (digitRunVal (ids ++ fds) : Nat)
  let mant : Int := if neg then -mag else mag
  match cs with
  | 'e' :: r | 'E' :: r =>
      let sr : Int × List Char :=
        match r with
        | '-' :: r' => (-1, r')
        | '+' :: r' => (1, r')
        | _ => (1, r)
      let (eds, r2) := takeDigitRun sr.2
      if eds.isEmpty then none
      else some ((mant, sr.1 * (digitRunVal eds : Nat) - (fds.length : Int)), r2)
  | _ => some ((mant, -(fds.length : Int)), cs)

/-- The digits of a JSON number literal after the optional minus: an integer
    part with no leading zero, an optional fraction (at least one digit),
    then the optional exponent via `parseJNumTail`. -/
def parseJNumBody (neg : Bool) (cs1 : List Char) : Option ((Int × Int) × List Char) :=
  let (ids, cs2) := takeDigitRun cs1
  if ids.isEmpty then none
  else if 1 < ids.length && ids.head? == some '0' then none
  else
    match cs2 with
    | '.' :: r =>
        let (fds, cs3) := takeDigitRun r
        if fds.isEmpty then none else parseJNumTail neg ids fds cs3
    | _ => parseJNumTail neg ids [] cs2

/-- A JSON number literal: optional minus, an integer part with no leading
    zero, an optional fraction (at least one digit), an optional exponent
    (at least one digit). -/
def parseJNum (cs : List Char) : Option ((Int × Int) × List Char) :=
  match cs with
  | '-' :: r => parseJNumBody true r
  | _ => parseJNumBody false cs

/-- Build a JS object from members in textual order: later duplicate keys
    overwrite in place, as `JSON.parse` does. -/
def buildObj (ms : List (String × JValue)) : List (String × JValue) :=
  ms.foldl (fun acc kv => setField acc kv.1 kv.2) []

mutual

/-- One JSON value (fuel-indexed), leading JSON whitespace allowed. -/
def parseJVal : Nat → List Char → Option (JValue × List Char)
  | 0, _ => none
  | fuel + 1, cs =>
      match skipJsonWs cs with
      | 'n' :: 'u' :: 'l' :: 'l' :: r => some (.null, r)
      | 't' :: 'r' :: 'u' :: 'e' :: r => some (.bool true, r)
      | 'f' :: 'a' :: 'l' :: 's' :: 'e' :: r => some (.bool false, r)
      | '"' :: r =>
          (match parseJStrAux [] r with
           | some (s, r') => some (.str s, r')
           | none => none)
      | '[' :: r =>
          (match skipJsonWs r with
           | [] => none
           | c :: r' =>
               if c = ']' then some (.arr [] [], r')
               else
                 match parseJElems fuel (c :: r') with
                 | some (es, r'') => some (.arr es [], r'')
                 | none => none)
      | '{' :: r =>
          (match skipJsonWs r with
           | [] => none
           | c :: r' =>
               if c = '}' then some (.obj [], r')
               else
                 match parseJMembers fuel (c :: r') with
                 | some (ms, r'') => some (.obj (buildObj ms), r'')
                 | none => none)
      | c :: rest =>
          if c == '-' || isDigitC c then
            match parseJNum (c :: rest) with
            | some (n, r') => some (.num n.1 n.2, r')
            | none => none
          else none
      | [] => none

/-- One or more comma-separated array elements up to the closing bracket. -/
def parseJElems : Nat → List Char → Option (List JValue × List Char)
  | 0, _ => none
  | fuel + 1, cs =>
      match parseJVal fuel cs with
      | none => none
      | some (v, r) =>
          match skipJsonWs r with
          | [] => none
          | c :: r' =>
              if c = ',' then
                match parseJElems fuel r' with
                | some (vs, r'') => some (v :: vs, r'')
                | none => none
              else if c = ']' then some ([v], r')
              else none

/-- One or more comma-separated object members up to the closing brace. -/
def parseJMembers : Nat → List Char → Option (List (String × JValue) × List Char)
  | 0, _ => none
  | fuel + 1, cs =>
      match skipJsonWs cs with
      | '"' :: r =>
          (match parseJStrAux [] r with
           | none => none
           | some (key, r1) =>
             match skipJsonWs r1 with
             | [] => none
             | c :: r2 =>
                 if c = ':' then
                   match parseJVal fuel r2 with
                   | none => none
                   | some (v, r3) =>
                     match skipJsonWs r3 with
                     | [] => none
                     | c2 :: r4 =>
                         if c2 = ',' then
                           match parseJMembers fuel r4 with
                           | some (ms, r5) => some ((key, v) :: ms, r5)
                           | none => none
                         else if c2 = '}' then some ([(key, v)], r4)
                         else none
                 else none)
      | _ => none

end

/-- The `JSON.parse` model: one JSON text, surrounding JSON whitespace
    allowed; `none` is a SyntaxError. -/
def jsonParse (s : String) : Option JValue :=
  match parseJVal (s.data.length + 1) s.data with
  | some (v, r) => if (skipJsonWs r).isEmpty then some v else none
  | none => none

/-! ## The `JSON.stringify` model -/

/-- A lowercase hex digit. -/
def hexDigitLower (d : Nat) : Char :=
  if d < 10 then Char.ofNat ('0'.toNat + d) else Char.ofNat ('a'.toNat + (d - 10))

/-- One character, JSON-escaped as `JSON.stringify` escapes it: the two-char
    escapes for quote, backslash, backspace, form feed, newline, carriage
    return and tab; `\u00xx` for the other control characters; itself
    otherwise. -/
def escapeJChar (c : Char) : List Char :=
  if c = '"' then ['\\', '"']
  else if c = '\\' then ['\\', '\\']
  else if c = '\x08' then ['\\', 'b']
  else if c = '\x0c' then ['\\', 'f']
  else if c = '\n' then ['\\', 'n']
  else if c = '\r' then ['\\', 'r']
  else if c = '\t' then ['\\', 't']
  else if c.toNat < 0x20 then
    ['\\', 'u', '0', '0', hexDigitLower (c.toNat / 16), hexDigitLower (c.toNat % 16)]
  else [c]

/-- A rendered JSON string literal. -/
def emitJStr (s : String) : List Char :=
  '"' :: (s.data.flatMap escapeJChar ++ ['"'])

mutual

/-- `JSON.stringify` of a value, as characters. Named array properties are
    not serialized, exactly as in JavaScript. -/
def emitJ : JValue → List Char
  | .null => "null".data
  | .bool true => "true".data
  | .bool false => "false".data
  | .num m e => numChars m e
  | .str s => emitJStr s
  | .arr es _ => '[' :: (emitElems es ++ [']'])
  | .obj fs => '{' :: (emitMembers fs ++ ['}'])

/-- Comma-separated rendered elements. -/
def emitElems : List JValue → List Char
  | [] => []
  | [v] => emitJ v
  | v :: rest => emitJ v ++ ',' :: emitElems rest

/-- Comma-separated rendered members. -/
def emitMembers : List (String × JValue) → List Char
  | [] => []
  | [kv] => emitJStr kv.1 ++ ':' :: emitJ kv.2
  | kv :: rest => emitJStr kv.1 ++ ':' :: emitJ kv.2 ++ ',' :: emitMembers rest

end

/-- `JSON.stringify`. -/
def jsonStringify (v : JValue) : String := ⟨emitJ v⟩

/-! ## `cleanJsonString`

The source applies, in order: `trim`, the global replace of `,(\s*[}\]])` by
its captured group, removal of the control characters `00`–`08`, `0B`, `0C`,
`0E`–`1F`, a replace of every backslash-`n` pair not preceded by a backslash
by the same backslash-`n` pair — the identity on every input, so it has no
model here — and the removal of a leading BOM. -/

/-- The body of the comma-strip loop, fuel-indexed (each step consumes at
    least one character, so `rmTrailingCommas` supplies ample fuel). -/
def rmTrailingCommasF : Nat → List Char → List Char
  | 0, l => l
  | fuel + 1, l =>
      match l with
      | [] => []
      | ',' :: rest =>
          (match spanJsWs rest with
           | (ws, c :: rest') =>
               if c = '}' ∨ c = ']' then ws ++ c :: rmTrailingCommasF fuel rest'
               else ',' :: rmTrailingCommasF fuel rest
           | (_, []) => ',' :: rmTrailingCommasF fuel rest)
      | c :: rest => c :: rmTrailingCommasF fuel rest

/-- The global replace of `,(\s*[}\]])` by `$1`: each comma directly followed
    by regex whitespace and a closing brace or bracket is dropped; scanning
    resumes after the closing delimiter. -/
def rmTrailingCommas (l : List Char) : List Char := rmTrailingCommasF (l.length + 1) l

/-- Removal of the control characters `00`–`08`, `0B`, `0C`, `0E`–`1F`
    (newline, tab and carriage return stay). -/
def rmCtrlChars (l : List Char) : List Char :=
  l.filter fun c =>
    !(c.toNat ≤ 0x08 || c.toNat == 0x0B || c.toNat == 0x0C ||
      (0x0E ≤ c.toNat && c.toNat ≤ 0x1F))

/-- Removal of one leading BOM. -/
def stripBOM : List Char → List Char
  | [] => []
  | c :: r => if c.toNat = 0xFEFF then r else c :: r

/-- `cleanJsonString`. -/
def cleanJsonString (s : String) : String :=
  ⟨stripBOM (rmCtrlChars (rmTrailingCommas (jsTrimL s.data)))⟩

/-! ## `extractJsonFromText` -/

/-- Split at the first occurrence of `pat`: what stands before it, and what
    follows it. -/
def splitAtSub (pat : List Char) : List Char → Option (List Char × List Char)
  | [] => if pat.isEmpty then some ([], []) else none
  | c :: rest =>
      if pat.isPrefixOf (c :: rest) then some ([], (c :: rest).drop pat.length)
      else
        match splitAtSub pat rest with
        | some (pre, post) => some (c :: pre, post)
        | none => none

/-- The fenced-code-block regex: the first triple backtick, an optional
    `json` tag, then a lazy capture up to the next triple backtick; the
    capture comes back trimmed (the regex `\s` set and the `trim` set agree,
    so consuming `\s*` before the capture and trimming it coincide). -/
def codeBlockCapture (l : List Char) : Option (List Char) :=
  match splitAtSub ['`', '`', '`'] l with
  | none => none
  | some (_, rest0) =>
      let rest1 := if ['j', 's', 'o', 'n'].isPrefixOf rest0 then rest0.drop 4 else rest0
      match splitAtSub ['`', '`', '`'] rest1 with
      | none => none
      | some (mid, _) => some (jsTrimL mid)

/-- The gate regexes `\{[\s\S]*\}` and `\[[\s\S]*\]`: a closer somewhere
    after the first opener. -/
def existsPairAround (o c : Char) (l : List Char) : Bool :=
  match splitAtSub [o] l with
  | some (_, rest) => rest.contains c
  | none => false

/-- The balanced-span scan: depth counting over the whole input, recording
    the index of the opener at the 0 → 1 transition and stopping right after
    the closer that returns the depth to 0. Oblivious to string literals,
    exactly like the source. -/
def delimScan (o c : Char) : List Char → Nat → Int → Option Nat → Option (Nat × Nat)
  | [], _, _, _ => none
  | x :: rest, i, depth, start =>
      if x = o then
        delimScan o c rest (i + 1) (depth + 1) (if depth = 0 then some i else start)
      else if x = c then
        if depth = 1 then
          match start with
          | some s0 => some (s0, i + 1)
          | none => none
        else delimScan o c rest (i + 1) (depth - 1) start
      else delimScan o c rest (i + 1) depth start

/-- The array half of the extraction (tried after the object half). -/
def extractArrBranch (l : List Char) : Option String :=
  if existsPairAround '[' ']' l then
    match delimScan '[' ']' l 0 0 none with
    | some (s0, e0) => some ⟨(l.drop s0).take (e0 - s0)⟩
    | none => none
  else none

/-- `extractJsonFromText`: fenced code block first, then the first balanced
    `{...}` span, then the first balanced `[...]` span. -/
def extractJsonFromText (s : String) : Option String :=
  match codeBlockCapture s.data with
  | some cap => some ⟨cap⟩
  | none =>
      if existsPairAround '{' '}' s.data then
        match delimScan '{' '}' s.data 0 0 none with
        | some (s0, e0) => some ⟨(s.data.drop s0).take (e0 - s0)⟩
        | none => extractArrBranch s.data
      else extractArrBranch s.data

/-! ## `partialRecovery`

The key-value regex
`"([^\"]+)"\s*:\s*("(?:[^\"\\]|\\.)*"|true|false|null|\d+(?:\.\d+)?|\[[\s\S]*?\]|\{[\s\S]*?\})`
is deterministic on every input (each greedy or lazy piece is forced, and no
failed alternative can be rescued by backtracking into an earlier piece), so
the scan below — earliest match position, first fitting alternative,
continue right after the match — is its exact behavior under `exec` in a
global-flag loop. -/

/-- The regex string alternative `"(?:[^\"\\]|\\.)*"` after the opening
    quote: pairs `\c` pass unless `c` is a line terminator (`.` does not
    match those), bare quotes close, a bare trailing backslash or an
    unterminated body fails. Returns the body (uninterpreted) and what
    follows the closing quote. -/
def scanRegexStr : List Char → Option (List Char × List Char)
  | [] => none
  | '"' :: rest => some ([], rest)
  | '\\' :: d :: rest =>
      if d = '\n' ∨ d = '\r' ∨ d.toNat = 0x2028 ∨ d.toNat = 0x2029 then none
      else
        match scanRegexStr rest with
        | some (body, r) => some ('\\' :: d :: body, r)
        | none => none
  | c :: rest =>
      if c = '\\' then none
      else
        match scanRegexStr rest with
        | some (body, r) => some (c :: body, r)
        | none => none

/-- The value alternation of the key-value regex, in the regex's order:
    quoted string, `true`, `false`, `null`, number (no sign), lazy bracket
    span, lazy brace span. Returns the matched text and the remainder. -/
def kvValue : List Char → Option (List Char × List Char)
  | '"' :: r =>
      (match scanRegexStr r with
       | some (body, rest) => some ('"' :: body ++ ['"'], rest)
       | none => none)
  | 't' :: 'r' :: 'u' :: 'e' :: r => some (['t', 'r', 'u', 'e'], r)
  | 'f' :: 'a' :: 'l' :: 's' :: 'e' :: r => some (['f', 'a', 'l', 's', 'e'], r)
  | 'n' :: 'u' :: 'l' :: 'l' :: r => some (['n', 'u', 'l', 'l'], r)
  | '[' :: r =>
      (match splitAtSub [']'] r with
       | some (mid, post) => some ('[' :: mid ++ [']'], post)
       | none => none)
  | '{' :: r =>
      (match splitAtSub ['}'] r with
       | some (mid, post) => some ('{' :: mid ++ ['}'], post)
       | none => none)
  | l =>
      let (ds, r) := takeDigitRun l
      if ds.isEmpty then none
      else
        match r with
        | '.' :: r2 =>
            let (fs, r3) := takeDigitRun r2
            if fs.isEmpty then some (ds, r) else some (ds ++ '.' :: fs, r3)
        | _ => some (ds, r)

/-- One attempt to match the key-value regex at the very head of the input:
    a quoted nonempty key (`[^\"]+` — anything but quotes, newlines
    included), `\s*`, a colon, `\s*`, then a value alternative. -/
def kvMatchHere (l : List Char) : Option (List Char × List Char × List Char) :=
  match l with
  | '"' :: r =>
      let key := r.takeWhile (fun c => !(c == '"'))
      if key.isEmpty then none
      else
        match r.dropWhile (fun c => !(c == '"')) with
        | '"' :: r2 =>
            (match r2.dropWhile isJsWs with
             | ':' :: r4 =>
                 (match kvValue (r4.dropWhile isJsWs) with
                  | some (vs, rest) => some (key, vs, rest)
                  | none => none)
             | _ => none)
        | _ => none
  | _ => none

/-- The earliest key-value match at or after the head of `l`. -/
def kvFindFrom : List Char → Option (List Char × List Char × List Char)
  | [] => none
  | c :: rest =>
      match kvMatchHere (c :: rest) with
      | some r => some r
      | none => kvFindFrom rest

/-- The string fallback's quote strip, `/^"|"$/g`: one leading and one
    trailing quote, each if present. -/
def stripEdgeQuotes (l : List Char) : List Char :=
  let a := match l with | '"' :: r => r | x => x
  match a.getLast? with
  | some '"' => a.dropLast
  | _ => a

/-- A recovered value: `JSON.parse` of the matched text, falling back to the
    quote-stripped text as a string. -/
def kvRecovered (vs : List Char) : JValue :=
  match jsonParse ⟨vs⟩ with
  | some j => j
  | none => .str ⟨stripEdgeQuotes vs⟩

/-- The `exec` loop: repeat from right after each match. Every match consumes
    at least one character, so fuel `length + 1` never runs out. -/
def kvLoop : Nat → List Char → List (String × JValue) → List (String × JValue)
  | 0, _, acc => acc
  | fuel + 1, l, acc =>
      match kvFindFrom l with
      | none => acc
      | some (key, vs, rest) => kvLoop fuel rest (setField acc ⟨key⟩ (kvRecovered vs))

/-- `partialRecovery`: the accumulated mapping, or `null` (`none`) when no
    match was found — the source's `foundAny` flag and its caller's
    `Object.keys(partial).length > 0` check both coincide with the mapping
    being nonempty. -/
def partialRecovery (s : String) : Option (List (String × JValue)) :=
  let r := kvLoop (s.data.length + 1) s.data []
  if r.isEmpty then none else some r

/-! ## `robustJSONParse` and `parseSSEData` -/

/-- The result record of the robust parser (`ParseResult<T>` in the source;
    every field the source leaves optional is an `Option`). -/
structure ParseResult where
  success : Bool
  data : Option JValue := none
  raw : Option String := none
  error : Option String := none
  strategy : Option String := none

/-- Strategies 4 and 5 — the continuation shared by the no-extraction path
    and the failed-extraction path. -/
def lateStrategies (trimmed : String) : ParseResult :=
  match partialRecovery trimmed with
  | some fields =>
      if fields.isEmpty then
        { success := false, raw := some trimmed,
          error := some "All parsing strategies failed", strategy := some "raw_fallback" }
      else
        { success := true, data := some (.obj fields), strategy := some "partial_recovery" }
  | none =>
      { success := false, raw := some trimmed,
        error := some "All parsing strategies failed", strategy := some "raw_fallback" }

/-- `robustJSONParse`. The only falsy `string` input is `""` (the
    `typeof`-guard cannot fire on a `string`); `String(input)` is then the
    input itself. -/
def robustJSONParse (input : String) : ParseResult :=
  if input = "" then
    { success := false, raw := some input,
      error := some "Invalid input: expected string", strategy := some "none" }
  else
    let trimmed := jsTrim input
    match jsonParse trimmed with
    | some d => { success := true, data := some d, strategy := some "direct" }
    | none =>
    match jsonParse (cleanJsonString trimmed) with
    | some d => { success := true, data := some d, strategy := some "cleaned" }
    | none =>
    match extractJsonFromText trimmed with
    | some e =>
        if e ≠ "" then
          match jsonParse e with
          | some d => { success := true, data := some d, strategy := some "extracted" }
          | none =>
            match jsonParse (cleanJsonString e) with
            | some d =>
                { success := true, data := some d, strategy := some "extracted_cleaned" }
            | none => lateStrategies trimmed
        else lateStrategies trimmed
    | none => lateStrategies trimmed

/-- `parseSSEData`: strip one `data: ` prefix, short-circuit `[DONE]`,
    delegate to the robust parser. -/
def parseSSEData (data : String) : ParseResult :=
  let data := if jsStartsWith data "data: " then jsDropStr data 6 else data
  if data = "[DONE]" then
    { success := true, data := some (.obj [("done", .bool true)]), strategy := some "sse_done" }
  else robustJSONParse data

/-! ## The response normalizer -/

/-- The normalized response (`NormalizedAgentResponse` in the source). The
    `message` and `metadata` fields hold whatever value the source assigns
    (not always a string at runtime), or `undefined`. -/
structure NormalizedAgentResponse where
  status : String
  result : JValue
  message : Option JValue := none
  metadata : Option JValue := none

/-- The `{status:'error', result:{}, message:'Empty response from agent'}`
    branch. -/
def emptyResponseErr : NormalizedAgentResponse :=
  { status := "error", result := .obj [],
    message := some (.str "Empty response from agent") }

/-- `parsed.status === 'error'`. -/
def isErrorStatus : Option JValue → Bool
  | some (.str s) => s == "error"
  | _ => false

/-- `const { status, message, metadata, ...rest } = parsed`: the remaining
    fields in order; on an array, index keys then remaining named properties,
    as object spread produces. -/
def restObject : JValue → List (String × JValue)
  | .obj fs =>
      fs.filter fun kv => !(kv.1 == "status" || kv.1 == "message" || kv.1 == "metadata")
  | .arr es ps =>
      (es.enum.map fun p => (toString p.1, p.2)) ++
        ps.filter fun kv => !(kv.1 == "status" || kv.1 == "message" || kv.1 == "metadata")
  | _ => []

/-- `normalizeResponse`: the ordered decision list of the source, the falsy
    guard first (`null`, `undefined`, `false`, `0`, `""` all take the
    empty-response branch), then the string / non-object wraps, then the
    four object shapes, recursing on a nested `response` member. -/
def normalizeResponse : Option JValue → NormalizedAgentResponse
  | none => emptyResponseErr
  | some parsed =>
      if jsTruthy parsed = false then emptyResponseErr
      else
        match parsed with
        | .str s =>
            { status := "success", result := .obj [("text", .str s)],
              message := some (.str s) }
        | .num m e =>
            { status := "success", result := .obj [("value", .num m e)],
              message := some (.str (jsNumToString m e)) }
        | .bool b =>
            { status := "success", result := .obj [("value", .bool b)],
              message := some (.str (if b then "true" else "false")) }
        | v =>
            if jsHas v "status" then
              if jsHas v "result" then
                { status := if isErrorStatus (jsGet v "status") then "error" else "success",
                  result :=
                    (match jsGet v "result" with
                     | some r => if jsTruthy r then r else .obj []
                     | none => .obj []),
                  message := jsGet v "message",
                  metadata := jsGet v "metadata" }
              else
                { status := if isErrorStatus (jsGet v "status") then "error" else "success",
                  result := if (restObject v).isEmpty then .obj [] else .obj (restObject v),
                  message := jsGet v "message",
                  metadata := jsGet v "metadata" }
            else
              match jsGet v "result" with
              | some r =>
                  { status := "success", result := r, message := jsGet v "message",
                    metadata := jsGet v "metadata" }
              | none =>
                  match jsGet v "message" with
                  | some (.str msg) =>
                      { status := "success", result := .obj [("text", .str msg)],
                        message := some (.str msg) }
                  | _ =>
                      match h : jsGet v "response" with
                      | some r => normalizeResponse (some r)
                      | none => { status := "success", result := v }
termination_by o => match o with | none => 0 | some v => jsize v
decreasing_by
  have := jsGet_jsize_lt v r "response" h
  simp
  omega

/-! ## The SSE event layer -/

/-- `ParsedSSEEvent` (each optional source field an `Option`; `eventType`
    holds whatever value the cast `(eventData.type || eventType)` yields at
    runtime, which need not be a string). -/
structure ParsedSSEEvent where
  success : Bool
  event : Option JValue := none
  eventType : Option JValue := none
  raw : Option String := none
  error : Option String := none
  parseStrategy : Option String := none

/-- Truthiness of the optional `requestId` argument. -/
def reqTruthy : Option String → Bool
  | some r => r != ""
  | none => false

/-- The three back-fill mutations of the success path — `type`, `request_id`
    and `timestamp`, each `if (!eventData.x) eventData.x = …` — with `none`
    the strict-mode TypeError of creating a property on a primitive. -/
def backfillEvent (d : JValue) (eventType : String) (requestId : Option String)
    (now : String) : Option JValue :=
  match (if jsTruthyOpt (jsGet d "type") then some d else jsSet d "type" (.str eventType)) with
  | none => none
  | some d1 =>
      match (if !jsTruthyOpt (jsGet d1 "request_id") && reqTruthy requestId then
               jsSet d1 "request_id" (.str (requestId.getD ""))
             else some d1) with
      | none => none
      | some d2 =>
          if jsTruthyOpt (jsGet d2 "timestamp") then some d2
          else jsSet d2 "timestamp" (.str now)

/-- The parse-failed result of `parseSSEEvent`. -/
def failEvent (parseResult : ParseResult) (data : String) : ParsedSSEEvent :=
  { success := false,
    eventType := some (.str "parse_error"),
    raw := some (jsOrStr parseResult.raw data),
    error := some (jsOrStr parseResult.error "Failed to parse SSE data"),
    parseStrategy := parseResult.strategy }

/-- `parseSSEEvent`. The clock (`new Date().toISOString()`) enters as `now`.
    The guard of the success path is `parseResult.success &&
    parseResult.data` — the *truthiness* of the parsed value, so a parsed
    `null`, `false`, `0` or `""` takes the failure path although parsing
    succeeded. -/
def parseSSEEvent (eventType data : String) (requestId : Option String) (now : String) :
    Except String ParsedSSEEvent :=
  if data = "[DONE]" then
    .ok { success := true,
          eventType := some (.str "chat_completed"),
          event := some (.obj [("type", .str "chat_completed"),
                               ("request_id", .str (requestId.getD "")),
                               ("timestamp", .str now)]) }
  else
    let parseResult := robustJSONParse data
    match parseResult.data with
    | some d =>
        if parseResult.success && jsTruthy d then
          match backfillEvent d eventType requestId now with
          | none => .error "TypeError"
          | some ev =>
              .ok { success := true, event := some ev,
                    eventType := some (jsOrJ (jsGet ev "type") (.str eventType)),
                    parseStrategy := parseResult.strategy }
        else .ok (failEvent parseResult data)
    | none => .ok (failEvent parseResult data)

/-- What one SSE line is: an `event: ` line (value trimmed), a `data: ` line
    (value kept as-is), or anything else. -/
inductive SSELineKind where
  | event
  | dataLine
  | other

/-- `parseSSELine`. -/
def parseSSELine (line : String) : SSELineKind × String :=
  if jsStartsWith line "event: " then (.event, jsTrim (jsDropStr line 7))
  else if jsStartsWith line "data: " then (.dataLine, jsDropStr line 6)
  else (.other, line)

/-- `currentEventType || 'message'`. -/
def orMessage : Option String → String
  | some t => if t = "" then "message" else t
  | none => "message"

/-- The loop body of `parseSSEStream` over the remaining lines, carrying the
    current declared type and data buffer; a TypeError from a frame's event
    parse aborts the whole loop, as a thrown exception does. -/
def sseLoop (requestId : Option String) (now : String) :
    List String → Option String → List String → Except String (List ParsedSSEEvent)
  | [], curT, curD =>
      if curD.isEmpty then .ok []
      else
        match parseSSEEvent (orMessage curT) (joinNL curD) requestId now with
        | .error e => .error e
        | .ok ev => .ok [ev]
  | line :: rest, curT, curD =>
      if jsTrim line = "" then
        (if curD.isEmpty then sseLoop requestId now rest none []
         else
           match parseSSEEvent (orMessage curT) (joinNL curD) requestId now with
           | .error e => .error e
           | .ok ev =>
               match sseLoop requestId now rest none [] with
               | .error e => .error e
               | .ok evs => .ok (ev :: evs))
      else
        match parseSSELine line with
        | (.event, v) => sseLoop requestId now rest (some v) curD
        | (.dataLine, v) => sseLoop requestId now rest curT (curD ++ [v])
        | (.other, _) => sseLoop requestId now rest curT curD

/-- `parseSSEStream`. -/
def parseSSEStream (rawSSE : String) (requestId : Option String) (now : String) :
    Except String (List ParsedSSEEvent) :=
  sseLoop requestId now ((splitOnNL rawSSE.data).map fun l => (⟨l⟩ : String)) none []

/-! ## SSE frames, from the specification's words

Independent of the single-event parser: what §4.4 of the specification says
the reassembler accumulates — used to state that `parseSSEStream` emits
exactly one event per frame. -/

/-- The frames of the remaining lines given the current state: `event: `
    lines set the declared type (trimmed), `data: ` lines append, a blank
    (trim-empty) line flushes the frame when data accumulated and resets the
    state, the trailing buffer flushes at end of input, a frame with no data
    lines yields nothing. -/
def sseFramesAux : List String → Option String → List String → List (Option String × List String)
  | [], curT, curD => if curD.isEmpty then [] else [(curT, curD)]
  | line :: rest, curT, curD =>
      if jsTrim line = "" then
        (if curD.isEmpty then sseFramesAux rest none []
         else (curT, curD) :: sseFramesAux rest none [])
      else if jsStartsWith line "event: " then
        sseFramesAux rest (some (jsTrim (jsDropStr line 7))) curD
      else if jsStartsWith line "data: " then
        sseFramesAux rest curT (curD ++ [jsDropStr line 6])
      else sseFramesAux rest curT curD

/-- The frames of an SSE text. -/
def sseFrames (rawSSE : String) : List (Option String × List String) :=
  sseFramesAux ((splitOnNL rawSSE.data).map fun l => (⟨l⟩ : String)) none []

/-! ## Lemmas: property access and assignment -/

theorem getField_setField_same (fs : List (String × JValue)) (k : String) (v : JValue) :
    getField (setField fs k v) k = some v := by
  induction fs with
  | nil => simp [setField, getField]
  | cons kv rest ih =>
      obtain ⟨k', v'⟩ := kv
      simp only [setField]
      split
      · simp [getField]
      · rename_i hne
        simp only [getField]
        rw [if_neg hne]
        exact ih

theorem getField_setField_other (fs : List (String × JValue)) (k k' : String) (v : JValue)
    (h : k' ≠ k) : getField (setField fs k v) k' = getField fs k' := by
  induction fs with
  | nil =>
      simp only [setField, getField]
      rw [if_neg (fun h' => h h'.symm)]
  | cons kv rest ih =>
      obtain ⟨k0, v0⟩ := kv
      simp only [setField]
      split
      · rename_i heq
        subst heq
        simp only [getField]
        rw [if_neg (fun h' => h h'.symm), if_neg (fun h' => h h'.symm)]
      · simp only [getField]
        split
        · rfl
        · exact ih

/-- Values on which property creation succeeds (objects and arrays). -/
def isObjLike : JValue → Bool
  | .arr _ _ => true
  | .obj _ => true
  | _ => false

theorem jsSet_objLike (d : JValue) (k : String) (x : JValue) (h : isObjLike d = true) :
    ∃ d', jsSet d k x = some d' ∧ isObjLike d' = true := by
  cases d <;> simp [isObjLike] at h ⊢ <;> simp [jsSet, isObjLike]

theorem jsGet_jsSet_same (d d' : JValue) (k : String) (x : JValue)
    (h : jsSet d k x = some d') : jsGet d' k = some x := by
  cases d <;> simp [jsSet] at h <;> subst h <;>
    simp [jsGet, getField_setField_same]

theorem jsGet_jsSet_other (d d' : JValue) (k k' : String) (x : JValue)
    (h : jsSet d k x = some d') (hk : k' ≠ k) : jsGet d' k' = jsGet d k' := by
  cases d <;> simp [jsSet] at h <;> subst h <;>
    simp [jsGet, getField_setField_other _ _ _ _ hk]

/-! ## The back-fill of the SSE success path, on property-capable payloads -/

theorem backfillEvent_spec (d : JValue) (ty : String) (rid : Option String) (now : String)
    (h : isObjLike d = true) :
    ∃ ev, backfillEvent d ty rid now = some ev ∧ isObjLike ev = true ∧
      jsGet ev "type" =
        (if jsTruthyOpt (jsGet d "type") then jsGet d "type" else some (.str ty)) ∧
      jsGet ev "request_id" =
        (if !jsTruthyOpt (jsGet d "request_id") && reqTruthy rid then
           some (.str (rid.getD "")) else jsGet d "request_id") ∧
      jsGet ev "timestamp" =
        (if jsTruthyOpt (jsGet d "timestamp") then jsGet d "timestamp"
         else some (.str now)) := by
  -- step 1: `type`
  have step1 : ∃ d1, (if jsTruthyOpt (jsGet d "type") then some d else
      jsSet d "type" (.str ty)) = some d1 ∧ isObjLike d1 = true ∧
      jsGet d1 "type" =
        (if jsTruthyOpt (jsGet d "type") then jsGet d "type" else some (.str ty)) ∧
      jsGet d1 "request_id" = jsGet d "request_id" ∧
      jsGet d1 "timestamp" = jsGet d "timestamp" := by
    by_cases ht : jsTruthyOpt (jsGet d "type")
    · exact ⟨d, by simp [ht], h, by simp [ht], rfl, rfl⟩
    · obtain ⟨d1, hset, hol⟩ := jsSet_objLike d "type" (.str ty) h
      refine ⟨d1, by simp [ht, hset], hol, ?_, ?_, ?_⟩
      · simp [ht, jsGet_jsSet_same d d1 _ _ hset]
      · exact jsGet_jsSet_other d d1 _ _ _ hset (by decide)
      · exact jsGet_jsSet_other d d1 _ _ _ hset (by decide)
  obtain ⟨d1, h1, hol1, hty1, hrq1, hts1⟩ := step1
  -- step 2: `request_id`
  have step2 : ∃ d2, (if !jsTruthyOpt (jsGet d1 "request_id") && reqTruthy rid then
      jsSet d1 "request_id" (.str (rid.getD "")) else some d1) = some d2 ∧
      isObjLike d2 = true ∧
      jsGet d2 "type" = jsGet d1 "type" ∧
      jsGet d2 "request_id" =
        (if !jsTruthyOpt (jsGet d1 "request_id") && reqTruthy rid then
           some (.str (rid.getD "")) else jsGet d1 "request_id") ∧
      jsGet d2 "timestamp" = jsGet d1 "timestamp" := by
    by_cases hr : (!jsTruthyOpt (jsGet d1 "request_id") && reqTruthy rid) = true
    · obtain ⟨d2, hset, hol⟩ := jsSet_objLike d1 "request_id" (.str (rid.getD "")) hol1
      refine ⟨d2, by simp [hr, hset], hol, ?_, ?_, ?_⟩
      · exact jsGet_jsSet_other d1 d2 _ _ _ hset (by decide)
      · simp [hr, jsGet_jsSet_same d1 d2 _ _ hset]
      · exact jsGet_jsSet_other d1 d2 _ _ _ hset (by decide)
    · rw [Bool.not_eq_true] at hr
      exact ⟨d1, by simp [hr], hol1, rfl, by simp [hr], rfl⟩
  obtain ⟨d2, h2, hol2, hty2, hrq2, hts2⟩ := step2
  -- step 3: `timestamp`
  have step3 : ∃ d3, (if jsTruthyOpt (jsGet d2 "timestamp") then some d2 else
      jsSet d2 "timestamp" (.str now)) = some d3 ∧ isObjLike d3 = true ∧
      jsGet d3 "type" = jsGet d2 "type" ∧
      jsGet d3 "request_id" = jsGet d2 "request_id" ∧
      jsGet d3 "timestamp" =
        (if jsTruthyOpt (jsGet d2 "timestamp") then jsGet d2 "timestamp"
         else some (.str now)) := by
    by_cases ht : jsTruthyOpt (jsGet d2 "timestamp")
    · exact ⟨d2, by simp [ht], hol2, rfl, rfl, by simp [ht]⟩
    · obtain ⟨d3, hset, hol⟩ := jsSet_objLike d2 "timestamp" (.str now) hol2
      refine ⟨d3, by simp [ht, hset], hol, ?_, ?_, ?_⟩
      · exact jsGet_jsSet_other d2 d3 _ _ _ hset (by decide)
      · exact jsGet_jsSet_other d2 d3 _ _ _ hset (by decide)
      · simp [ht, jsGet_jsSet_same d2 d3 _ _ hset]
  obtain ⟨d3, h3, hol3, hty3, hrq3, hts3⟩ := step3
  refine ⟨d3, ?_, hol3, ?_, ?_, ?_⟩
  · simp only [backfillEvent, h1, h2, h3]
  · rw [hty3, hty2, hty1]
  · rw [hrq3, hrq2, hrq1]
  · rw [hts3, hts2, hts1]

/-! ## C8: the `[DONE]` short-circuit -/

/-- C8: for every declared type, optional `requestId` and clock value,
    `parseSSEEvent` on data exactly `[DONE]` returns a successful event of
    type `chat_completed` whose synthetic payload carries the supplied
    `request_id` (or `""`) and the timestamp — by an equation whose right
    side does not mention the JSON parser, which the `[DONE]` branch indeed
    never invokes. -/
theorem c8_done_short_circuit (ty : String) (rid : Option String) (now : String) :
    parseSSEEvent ty "[DONE]" rid now =
      .ok { success := true,
            eventType := some (.str "chat_completed"),
            event := some (.obj [("type", .str "chat_completed"),
                                 ("request_id", .str (rid.getD "")),
                                 ("timestamp", .str now)]) } := by
  simp [parseSSEEvent]

/-! ## C10: strictness of the line prefixes -/

/-- C10: a non-blank line that starts with neither `event: ` nor `data: `
    (both with the space) — an SSE comment, an `id:`/`retry:` field, or a
    prefix glued to its payload — leaves the stream state exactly as it was:
    no declared-type change, no data-buffer change, no event. -/
theorem c10_other_lines_ignored (line : String) (rest : List String) (rid : Option String)
    (now : String) (t : Option String) (d : List String)
    (hblank : jsTrim line ≠ "")
    (hev : jsStartsWith line "event: " = false)
    (hdata : jsStartsWith line "data: " = false) :
    sseLoop rid now (line :: rest) t d = sseLoop rid now rest t d := by
  simp only [sseLoop, if_neg hblank, parseSSELine, hev, hdata]
  simp

/-- C10, witnessed: `data:42` (no space after the colon) is ignored. -/
theorem c10_witness :
    jsTrim "data:42" ≠ "" ∧ jsStartsWith "data:42" "event: " = false ∧
    jsStartsWith "data:42" "data: " = false ∧
    sseLoop none "T" ["data:42", "data: [DONE]"] none [] =
      sseLoop none "T" ["data: [DONE]"] none [] :=
  ⟨by decide, by decide, by decide,
   c10_other_lines_ignored "data:42" ["data: [DONE]"] none "T" none []
     (by decide) (by decide) (by decide)⟩

/-! ## C4: the ParseResult invariant -/

/-- The producing strategies of the specification. -/
def ProducingStrategy (st : Option String) : Prop :=
  st = some "direct" ∨ st = some "cleaned" ∨ st = some "extracted" ∨
  st = some "extracted_cleaned" ∨ st = some "partial_recovery" ∨ st = some "sse_done"

/-- The ParseResult invariant of the specification: success carries data and
    a producing strategy, failure carries `raw` and `error`, and `strategy`
    is always set. -/
def ParseResultInvariant (r : ParseResult) : Prop :=
  (r.success = true → r.data.isSome = true ∧ ProducingStrategy r.strategy) ∧
  (r.success = false → r.raw.isSome = true ∧ r.error.isSome = true) ∧
  r.strategy.isSome = true

theorem robustJSONParse_invariant (s : String) :
    ParseResultInvariant (robustJSONParse s) := by
  have hlate : ∀ t : String, ParseResultInvariant (lateStrategies t) := by
    intro t
    unfold lateStrategies
    repeat' split
    all_goals simp [ParseResultInvariant, ProducingStrategy]
  unfold robustJSONParse
  dsimp only
  split
  · simp [ParseResultInvariant, ProducingStrategy]
  · split
    · simp [ParseResultInvariant, ProducingStrategy]
    · split
      · simp [ParseResultInvariant, ProducingStrategy]
      · split
        · split
          · split
            · simp [ParseResultInvariant, ProducingStrategy]
            · split
              · simp [ParseResultInvariant, ProducingStrategy]
              · exact hlate _
          · exact hlate _
        · exact hlate _

theorem parseSSEData_invariant (s : String) :
    ParseResultInvariant (parseSSEData s) := by
  unfold parseSSEData
  dsimp only
  repeat' split
  all_goals first
    | exact robustJSONParse_invariant _
    | simp [ParseResultInvariant, ProducingStrategy]

/-- C4: every `robustJSONParse` and every `parseSSEData` result satisfies the
    ParseResult invariant. -/
theorem c4_parse_result_invariant (s : String) :
    ParseResultInvariant (robustJSONParse s) ∧ ParseResultInvariant (parseSSEData s) :=
  ⟨robustJSONParse_invariant s, parseSSEData_invariant s⟩

/-! ## C1: totality -/

/-! ## Unfolding lemmas for the branches of `normalizeResponse` -/

theorem normalizeResponse_none : normalizeResponse none = emptyResponseErr := by
  rw [normalizeResponse.eq_def]

theorem normalizeResponse_falsy (v : JValue) (hf : jsTruthy v = false) :
    normalizeResponse (some v) = emptyResponseErr := by
  rw [normalizeResponse.eq_def]
  simp [hf]

theorem normalizeResponse_str (s : String) (h : s ≠ "") :
    normalizeResponse (some (.str s)) =
      { status := "success", result := .obj [("text", .str s)],
        message := some (.str s) } := by
  rw [normalizeResponse.eq_def]
  simp [jsTruthy, h]

theorem normalizeResponse_num (m e : Int) (h : m ≠ 0) :
    normalizeResponse (some (.num m e)) =
      { status := "success", result := .obj [("value", .num m e)],
        message := some (.str (jsNumToString m e)) } := by
  rw [normalizeResponse.eq_def]
  simp [jsTruthy, h]

theorem normalizeResponse_true :
    normalizeResponse (some (.bool true)) =
      { status := "success", result := .obj [("value", .bool true)],
        message := some (.str "true") } := by
  rw [normalizeResponse.eq_def]
  simp [jsTruthy]

theorem normalizeResponse_status_result (v : JValue) (hob : isObjLike v = true)
    (ht : jsTruthy v = true) (hs : jsHas v "status" = true) (hr : jsHas v "result" = true) :
    normalizeResponse (some v) =
      { status := if isErrorStatus (jsGet v "status") then "error" else "success",
        result :=
          (match jsGet v "result" with
           | some r => if jsTruthy r then r else .obj []
           | none => .obj []),
        message := jsGet v "message",
        metadata := jsGet v "metadata" } := by
  rw [normalizeResponse.eq_def]
  cases v with
  | null => simp [isObjLike] at hob
  | bool b => simp [isObjLike] at hob
  | num m e => simp [isObjLike] at hob
  | str s => simp [isObjLike] at hob
  | arr es ps =>
      simp only []
      split
      · simp_all
      · simp [ht, hs, hr]
  | obj fs =>
      simp only []
      split
      · simp_all
      · simp [ht, hs, hr]

theorem normalizeResponse_status_only (v : JValue) (hob : isObjLike v = true)
    (ht : jsTruthy v = true) (hs : jsHas v "status" = true) (hr : jsHas v "result" = false) :
    normalizeResponse (some v) =
      { status := if isErrorStatus (jsGet v "status") then "error" else "success",
        result := if (restObject v).isEmpty then .obj [] else .obj (restObject v),
        message := jsGet v "message",
        metadata := jsGet v "metadata" } := by
  rw [normalizeResponse.eq_def]
  cases v with
  | null => simp [isObjLike] at hob
  | bool b => simp [isObjLike] at hob
  | num m e => simp [isObjLike] at hob
  | str s => simp [isObjLike] at hob
  | arr es ps =>
      simp only []
      split
      · simp_all
      · simp [ht, hs, hr]
  | obj fs =>
      simp only []
      split
      · simp_all
      · simp [ht, hs, hr]

theorem normalizeResponse_result_only (v : JValue) (r : JValue) (hob : isObjLike v = true)
    (ht : jsTruthy v = true) (hs : jsHas v "status" = false)
    (hr : jsGet v "result" = some r) :
    normalizeResponse (some v) =
      { status := "success", result := r, message := jsGet v "message",
        metadata := jsGet v "metadata" } := by
  rw [normalizeResponse.eq_def]
  cases v with
  | null => simp [isObjLike] at hob
  | bool b => simp [isObjLike] at hob
  | num m e => simp [isObjLike] at hob
  | str s => simp [isObjLike] at hob
  | arr es ps =>
      simp only []
      split
      · simp_all
      · simp [ht, hs, hr]
  | obj fs =>
      simp only []
      split
      · simp_all
      · simp [ht, hs, hr]

theorem normalizeResponse_message_str (v : JValue) (msg : String) (hob : isObjLike v = true)
    (ht : jsTruthy v = true) (hs : jsHas v "status" = false)
    (hr : jsGet v "result" = none) (hm : jsGet v "message" = some (.str msg)) :
    normalizeResponse (some v) =
      { status := "success", result := .obj [("text", .str msg)],
        message := some (.str msg) } := by
  rw [normalizeResponse.eq_def]
  cases v with
  | null => simp [isObjLike] at hob
  | bool b => simp [isObjLike] at hob
  | num m e => simp [isObjLike] at hob
  | str s => simp [isObjLike] at hob
  | arr es ps =>
      simp only []
      split
      · simp_all
      · simp [ht, hs, hr, hm]
  | obj fs =>
      simp only []
      split
      · simp_all
      · simp [ht, hs, hr, hm]

/-- Is a property read a string value? (the `typeof parsed.message === 'string'`
    test of the message branch). -/
def msgIsStr : Option JValue → Bool
  | some (.str _) => true
  | _ => false

theorem normalizeResponse_response (v r : JValue) (hob : isObjLike v = true)
    (ht : jsTruthy v = true) (hs : jsHas v "status" = false)
    (hr : jsGet v "result" = none) (hm : msgIsStr (jsGet v "message") = false)
    (hresp : jsGet v "response" = some r) :
    normalizeResponse (some v) = normalizeResponse (some r) := by
  rw [normalizeResponse.eq_def]
  cases v with
  | null => simp [isObjLike] at hob
  | bool b => simp [isObjLike] at hob
  | num m e => simp [isObjLike] at hob
  | str s => simp [isObjLike] at hob
  | arr es ps =>
      simp only []
      split
      · simp_all
      · simp only [ht, hs, hr]
        repeat' split
        all_goals simp_all [msgIsStr]
  | obj fs =>
      simp only []
      split
      · simp_all
      · simp only [ht, hs, hr]
        repeat' split
        all_goals simp_all [msgIsStr]

theorem normalizeResponse_plain (v : JValue) (hob : isObjLike v = true)
    (ht : jsTruthy v = true) (hs : jsHas v "status" = false)
    (hr : jsGet v "result" = none) (hm : msgIsStr (jsGet v "message") = false)
    (hresp : jsGet v "response" = none) :
    normalizeResponse (some v) = { status := "success", result := v } := by
  rw [normalizeResponse.eq_def]
  cases v with
  | null => simp [isObjLike] at hob
  | bool b => simp [isObjLike] at hob
  | num m e => simp [isObjLike] at hob
  | str s => simp [isObjLike] at hob
  | arr es ps =>
      simp only []
      split
      · simp_all
      · simp only [ht, hs, hr]
        repeat' split
        all_goals simp_all [msgIsStr]
  | obj fs =>
      simp only []
      split
      · simp_all
      · simp only [ht, hs, hr]
        repeat' split
        all_goals simp_all [msgIsStr]


theorem isObjLike_of_branches (v : JValue)
    (h1 : ∀ s, v = JValue.str s → False) (h2 : ∀ m e, v = JValue.num m e → False)
    (h3 : ∀ b, v = JValue.bool b → False) (ht : ¬ jsTruthy v = false) :
    isObjLike v = true := by
  cases v with
  | null => simp [jsTruthy] at ht
  | bool b => exact absurd rfl (h3 b)
  | num m e => exact absurd rfl (h2 m e)
  | str s => exact absurd rfl (h1 s)
  | arr es ps => rfl
  | obj fs => rfl

theorem msgIsStr_eq_false_of (o : Option JValue)
    (h : ∀ s, o = some (JValue.str s) → False) : msgIsStr o = false := by
  cases o with
  | none => rfl
  | some w => cases w <;> first | rfl | exact absurd rfl (h _)

theorem normalizeResponse_status (o : Option JValue) :
    (normalizeResponse o).status = "success" ∨ (normalizeResponse o).status = "error" := by
  induction o using normalizeResponse.induct with
  | case1 => rw [normalizeResponse_none]; right; rfl
  | case2 v hf => rw [normalizeResponse_falsy v hf]; right; rfl
  | case3 s h =>
      rw [normalizeResponse_str s (by simpa [jsTruthy] using h)]
      left; rfl
  | case4 m e h =>
      rw [normalizeResponse_num m e (by simpa [jsTruthy] using h)]
      left; rfl
  | case5 b h =>
      cases b with
      | false => simp [jsTruthy] at h
      | true => rw [normalizeResponse_true]; left; rfl
  | case6 v h1 h2 h3 hst hres ht =>
      rw [normalizeResponse_status_result v (isObjLike_of_branches v h1 h2 h3 ht)
            (by simpa using ht) hst hres]
      dsimp only
      split
      · right; rfl
      · left; rfl
  | case7 v h1 h2 h3 hst hres ht =>
      rw [normalizeResponse_status_only v (isObjLike_of_branches v h1 h2 h3 ht)
            (by simpa using ht) hst (by simpa using hres)]
      dsimp only
      split
      · right; rfl
      · left; rfl
  | case8 v h1 h2 h3 hst x hx ht =>
      rw [normalizeResponse_result_only v x (isObjLike_of_branches v h1 h2 h3 ht)
            (by simpa using ht) (by simpa using hst) hx]
      left; rfl
  | case9 v h1 h2 h3 hst hres s hmsg ht =>
      rw [normalizeResponse_message_str v s (isObjLike_of_branches v h1 h2 h3 ht)
            (by simpa using ht) (by simpa using hst) hres hmsg]
      left; rfl
  | case10 v h1 h2 h3 hst hres r hresp hmsg ht ih =>
      rw [normalizeResponse_response v r (isObjLike_of_branches v h1 h2 h3 ht)
            (by simpa using ht) (by simpa using hst) hres
            (msgIsStr_eq_false_of _ hmsg) hresp]
      exact ih
  | case11 v h1 h2 h3 hst hres hresp hmsg ht =>
      rw [normalizeResponse_plain v (isObjLike_of_branches v h1 h2 h3 ht)
            (by simpa using ht) (by simpa using hst) hres
            (msgIsStr_eq_false_of _ hmsg) hresp]
      left; rfl


/-- C1: totality — for every string the robust parser yields a `ParseResult`
    (with its `strategy` set), and for every value of the modelled JS value
    universe, at any nesting depth, the normalizer yields a
    `NormalizedAgentResponse` whose `status` is one of the two contractual
    strings. In this embedding both functions are total Lean definitions, and
    every throwing operation of the source (`JSON.parse`) is modelled as a
    value, so no exception escapes either. -/
theorem c1_totality (s : String) (v : Option JValue) :
    (robustJSONParse s).strategy.isSome = true ∧
      ((normalizeResponse v).status = "success" ∨ (normalizeResponse v).status = "error") :=
  ⟨(robustJSONParse_invariant s).2.2, normalizeResponse_status v⟩

/-! ## C2: the scalar cases of the normalizer -/

/-- A non-object, non-null runtime value (`typeof` neither `'object'` nor a
    function): string, number or boolean. -/
def isScalar : JValue → Bool
  | .str _ => true
  | .num _ _ => true
  | .bool _ => true
  | _ => false

/-- C2, counterexample: the claim says only absent/null inputs yield the
    error shape and that any non-string scalar `v` yields
    `{status:'success', result:{value:v}, message:String(v)}` — but the
    source guards with JS truthiness, so `false` takes the empty-response
    error branch. -/
theorem c2_counterexample :
    normalizeResponse (some (.bool false)) = emptyResponseErr ∧
    (normalizeResponse (some (.bool false))).status ≠ "success" ∧
    (normalizeResponse (some (.bool false))).result ≠ .obj [("value", .bool false)] := by
  have h := normalizeResponse_falsy (.bool false) rfl
  refine ⟨h, ?_, ?_⟩
  · rw [h]; decide
  · rw [h]; simp [emptyResponseErr]

/-- C2, amended: a *truthy* string wraps as `{text}`, a truthy non-string
    scalar wraps as `{value}` with `String(v)` as message, and every falsy
    scalar (`""`, `0`, `false`) — not only absent/null — yields
    `{status:'error', result:{}, message:'Empty response from agent'}`. -/
theorem c2_scalar_normalization (v : JValue) (h : isScalar v = true) :
    normalizeResponse (some v) =
      (if jsTruthy v = false then emptyResponseErr
       else
         match v with
         | .str s =>
             { status := "success", result := .obj [("text", .str s)],
               message := some (.str s) }
         | .num m e =>
             { status := "success", result := .obj [("value", .num m e)],
               message := some (.str (jsNumToString m e)) }
         | .bool b =>
             { status := "success", result := .obj [("value", .bool b)],
               message := some (.str (if b then "true" else "false")) }
         | _ => emptyResponseErr) := by
  cases v with
  | str s =>
      by_cases hs : s = ""
      · subst hs
        rw [normalizeResponse_falsy (.str "") (by decide)]
        rfl
      · rw [normalizeResponse_str s hs]
        simp [jsTruthy, hs]
  | num m e =>
      by_cases hm : m = 0
      · subst hm
        rw [normalizeResponse_falsy _ (by simp [jsTruthy])]
        simp [jsTruthy]
      · rw [normalizeResponse_num m e hm]
        simp [jsTruthy, hm]
  | bool b =>
      cases b with
      | false =>
          rw [normalizeResponse_falsy (.bool false) (by decide)]
          rfl
      | true =>
          rw [normalizeResponse_true]
          simp [jsTruthy]
  | null => simp [isScalar] at h
  | arr es ps => simp [isScalar] at h
  | obj fs => simp [isScalar] at h

/-- C2, witnessed at the truthy number `5`. -/
theorem c2_scalar_normalization_witness :
    isScalar (.num 5 0) = true ∧
    normalizeResponse (some (.num 5 0)) =
      { status := "success", result := .obj [("value", .num 5 0)],
        message := some (.str "5") } :=
  ⟨rfl, by
    have h := c2_scalar_normalization (.num 5 0) rfl
    rw [h]
    simp [jsTruthy]
    rfl⟩

/-! ## C5: the direct strategy -/

/-- If `JSON.parse` succeeds on the trimmed input, the first strategy wins. -/
theorem robustJSONParse_direct (s : String) (v : JValue) (h : jsonParse (jsTrim s) = some v) :
    robustJSONParse s = { success := true, data := some v, strategy := some "direct" } := by
  have hs : s ≠ "" := by
    intro he
    subst he
    rw [show jsTrim "" = "" from rfl, show jsonParse "" = none from rfl] at h
    exact Option.noConfusion h
  unfold robustJSONParse
  rw [if_neg hs]
  dsimp only
  rw [h]

/-- C5: an input whose trimmed form is valid JSON parses with strategy
    `direct` — never a later strategy. -/
theorem c5_direct_strategy (s : String) (v : JValue) (h : jsonParse (jsTrim s) = some v) :
    robustJSONParse s = { success := true, data := some v, strategy := some "direct" } :=
  robustJSONParse_direct s v h

/-- C5, witnessed. -/
theorem c5_direct_strategy_witness :
    jsonParse (jsTrim "  \x7b\"a\": 1\x7d  ") = some (.obj [("a", .num 1 0)]) ∧
    robustJSONParse "  \x7b\"a\": 1\x7d  " =
      { success := true, data := some (.obj [("a", .num 1 0)]), strategy := some "direct" } :=
  ⟨rfl, c5_direct_strategy "  \x7b\"a\": 1\x7d  " (.obj [("a", .num 1 0)]) rfl⟩

/-! ## C6: the raw fallback -/

/-- C6: when the direct, cleaned, extracted (plain and cleaned) and partial
    strategies all fail on a nonempty input, the result is a failure with
    strategy `raw_fallback`, the trimmed input as `raw`, and a nonempty
    error string. -/
theorem c6_raw_fallback (s : String)
    (hne : s ≠ "")
    (h1 : jsonParse (jsTrim s) = none)
    (h2 : jsonParse (cleanJsonString (jsTrim s)) = none)
    (h3 : ∀ e, extractJsonFromText (jsTrim s) = some e → e ≠ "" →
      jsonParse e = none ∧ jsonParse (cleanJsonString e) = none)
    (h4 : partialRecovery (jsTrim s) = none) :
    robustJSONParse s =
      { success := false, raw := some (jsTrim s),
        error := some "All parsing strategies failed", strategy := some "raw_fallback" } ∧
    ∃ msg, (robustJSONParse s).error = some msg ∧ msg ≠ "" := by
  have hmain : robustJSONParse s =
      { success := false, raw := some (jsTrim s),
        error := some "All parsing strategies failed", strategy := some "raw_fallback" } := by
    unfold robustJSONParse
    rw [if_neg hne]
    dsimp only
    rw [h1, h2]
    cases hext : extractJsonFromText (jsTrim s) with
    | none => simp [lateStrategies, h4]
    | some e =>
        by_cases he : e = ""
        · simp [he, lateStrategies, h4]
        · obtain ⟨he1, he2⟩ := h3 e hext he
          simp [he, he1, he2, lateStrategies, h4]
  refine ⟨hmain, "All parsing strategies failed", by rw [hmain], by decide⟩

/-- C6, witnessed at the specification's own example input. -/
theorem c6_raw_fallback_witness :
    jsonParse (jsTrim "not json at all, just prose") = none ∧
    partialRecovery (jsTrim "not json at all, just prose") = none ∧
    robustJSONParse "not json at all, just prose" =
      { success := false, raw := some (jsTrim "not json at all, just prose"),
        error := some "All parsing strategies failed", strategy := some "raw_fallback" } :=
  ⟨rfl, rfl,
   (c6_raw_fallback "not json at all, just prose" (by decide) rfl rfl
     (fun e he => absurd he (by
       rw [show extractJsonFromText (jsTrim "not json at all, just prose") = none from rfl]
       simp)) rfl).1⟩

/-! ## C3: the success path of the single-event parser -/

/-- C3, counterexample: `"null"` parses successfully (strategy `direct`) yet
    `parseSSEEvent` returns a *failure* result tagged `parse_error` — the
    success guard tests the truthiness of the parsed value, not parse
    success. -/
theorem c3_counterexample :
    (robustJSONParse "null").success = true ∧
    parseSSEEvent "message" "null" none "T0" =
      .ok { success := false, eventType := some (.str "parse_error"),
            raw := some "null", error := some "Failed to parse SSE data",
            parseStrategy := some "direct" } :=
  ⟨rfl, rfl⟩

/-- C3, amended: when the data is not `[DONE]` and parses successfully to a
    *truthy, property-capable* value (an object or array), the result is a
    successful event whose payload has `type` back-filled (the payload's own
    truthy `type` wins), `request_id` back-filled from a truthy parameter
    when missing or falsy, and `timestamp` back-filled when missing or
    falsy; a successfully parsed falsy value takes the `parse_error` failure
    path instead, and a truthy primitive raises a TypeError. -/
theorem c3_success_backfill (ty data : String) (rid : Option String) (now : String)
    (d : JValue) (hne : data ≠ "[DONE]")
    (hsucc : (robustJSONParse data).success = true)
    (hdata : (robustJSONParse data).data = some d)
    (hob : isObjLike d = true) (htr : jsTruthy d = true) :
    ∃ ev, parseSSEEvent ty data rid now =
        .ok { success := true, event := some ev,
              eventType := some (jsOrJ (jsGet ev "type") (.str ty)),
              parseStrategy := (robustJSONParse data).strategy } ∧
      jsGet ev "type" =
        (if jsTruthyOpt (jsGet d "type") then jsGet d "type" else some (.str ty)) ∧
      jsGet ev "request_id" =
        (if !jsTruthyOpt (jsGet d "request_id") && reqTruthy rid then
           some (.str (rid.getD "")) else jsGet d "request_id") ∧
      jsGet ev "timestamp" =
        (if jsTruthyOpt (jsGet d "timestamp") then jsGet d "timestamp"
         else some (.str now)) := by
  obtain ⟨ev, hbf, hol, hty, hrq, hts⟩ := backfillEvent_spec d ty rid now hob
  refine ⟨ev, ?_, hty, hrq, hts⟩
  unfold parseSSEEvent
  rw [if_neg hne]
  dsimp only
  rw [hdata]
  dsimp only
  rw [hsucc, htr]
  simp only [Bool.and_self, if_pos]
  rw [hbf]

/-- C3, witnessed: a payload with its own `type` and no `request_id`. -/
theorem c3_success_backfill_witness :
    (robustJSONParse "\x7b\"type\":\"tool_error\"\x7d").success = true ∧
    (robustJSONParse "\x7b\"type\":\"tool_error\"\x7d").data =
      some (.obj [("type", .str "tool_error")]) ∧
    ∃ ev, parseSSEEvent "message" "\x7b\"type\":\"tool_error\"\x7d" (some "r1") "T0" =
        .ok { success := true, event := some ev,
              eventType := some (jsOrJ (jsGet ev "type") (.str "message")),
              parseStrategy := (robustJSONParse "\x7b\"type\":\"tool_error\"\x7d").strategy } ∧
      jsGet ev "type" =
        (if jsTruthyOpt (jsGet (JValue.obj [("type", .str "tool_error")]) "type") then
           jsGet (JValue.obj [("type", .str "tool_error")]) "type"
         else some (.str "message")) ∧
      jsGet ev "request_id" =
        (if !jsTruthyOpt (jsGet (JValue.obj [("type", .str "tool_error")]) "request_id") &&
            reqTruthy (some "r1") then
           some (.str ((some "r1").getD ""))
         else jsGet (JValue.obj [("type", .str "tool_error")]) "request_id") ∧
      jsGet ev "timestamp" =
        (if jsTruthyOpt (jsGet (JValue.obj [("type", .str "tool_error")]) "timestamp") then
           jsGet (JValue.obj [("type", .str "tool_error")]) "timestamp"
         else some (.str "T0")) :=
  ⟨rfl, rfl,
   c3_success_backfill "message" "\x7b\"type\":\"tool_error\"\x7d" (some "r1") "T0"
     (.obj [("type", .str "tool_error")]) (by decide) rfl rfl rfl rfl⟩

/-! ## C7: one event per frame — and the TypeError that breaks it -/

/-- Effectful map in the `Except` monad: the results in order, the first
    exception aborting the rest — exactly how a `for` loop that pushes onto
    an array behaves under `throw`. -/
def mapExcept {α β ε : Type} (f : α → Except ε β) : List α → Except ε (List β)
  | [] => .ok []
  | x :: xs =>
      match f x with
      | .error e => .error e
      | .ok y =>
          match mapExcept f xs with
          | .error e => .error e
          | .ok ys => .ok (y :: ys)

/-- The stream loop emits exactly the per-frame event parses, sequenced in the
    `Except` monad: one event per frame with at least one data line, data
    lines joined by `"\n"`, blank lines flushing, the trailing buffer
    flushing, a missing or falsy declared type defaulting to `message` — and
    a frame whose parse throws aborting the whole loop. -/
theorem sseLoop_frames (rid : Option String) (now : String) :
    ∀ (lines : List String) (t : Option String) (d : List String),
      sseLoop rid now lines t d =
        mapExcept (fun f => parseSSEEvent (orMessage f.1) (joinNL f.2) rid now)
          (sseFramesAux lines t d) := by
  intro lines
  induction lines with
  | nil =>
      intro t d
      simp only [sseLoop, sseFramesAux]
      by_cases hd : d.isEmpty
      · simp [hd, mapExcept]
      · simp only [hd, if_neg]
        cases h : parseSSEEvent (orMessage t) (joinNL d) rid now <;>
          simp [h, mapExcept]
  | cons line rest ih =>
      intro t d
      simp only [sseLoop, sseFramesAux]
      by_cases hb : jsTrim line = ""
      · simp only [hb, if_pos]
        by_cases hd : d.isEmpty
        · simp only [hd, if_pos]
          exact ih none []
        · simp only [hd, if_neg]
          cases h : parseSSEEvent (orMessage t) (joinNL d) rid now with
          | error e => simp [h, mapExcept]
          | ok ev =>
              rw [ih none []]
              cases h2 : mapExcept
                  (fun f => parseSSEEvent (orMessage f.1) (joinNL f.2) rid now)
                  (sseFramesAux rest none []) <;>
                simp [h, h2, mapExcept]
      · simp only [hb, if_neg]
        by_cases he : jsStartsWith line "event: "
        · simp [parseSSELine, he, ih]
        · by_cases hd2 : jsStartsWith line "data: "
          · simp [parseSSELine, he, hd2, ih]
          · simp [parseSSELine, he, hd2, ih]

/-- C7: the failing input — the single frame `data: 42` has one data line, so
    the claim promises exactly one emitted `ParsedSSEEvent`; instead the
    code's success path assigns `.type` on the primitive `42` and the
    strict-mode TypeError aborts the stream, which emits nothing. -/
theorem c7_stream_typeerror_at_primitive :
    sseFrames "data: 42\n\n" = [(none, ["42"])] ∧
    (robustJSONParse "42").success = true ∧
    parseSSEStream "data: 42\n\n" none "T0" = .error "TypeError" :=
  ⟨rfl, rfl, rfl⟩


/-! ## C9 groundwork: the string codec round-trip -/

theorem hexVal_hexDigitLower (d : Nat) (h : d < 16) : hexVal (hexDigitLower d) = some d := by
  interval_cases d <;> decide

theorem hexQuad_00 (c : Char) (hlt : c.toNat < 0x20) :
    hexQuad '0' '0' (hexDigitLower (c.toNat / 16)) (hexDigitLower (c.toNat % 16)) =
      some c.toNat := by
  have h16 : c.toNat % 16 < 16 := Nat.mod_lt _ (by omega)
  have h16' : c.toNat / 16 < 16 := by omega
  unfold hexQuad
  rw [hexVal_hexDigitLower _ h16', hexVal_hexDigitLower _ h16,
    show hexVal '0' = some 0 from rfl]
  show some _ = some _
  congr 1
  omega

/-- One step of the unit decoder at a `\uXXXX` escape that denotes a
    non-surrogate below `0xD800`. -/
theorem nextStrUnit_u_low (a b c2 d : Char) (n : Nat) (l : List Char)
    (hq : hexQuad a b c2 d = some n) (hn : n < 0xD800) :
    nextStrUnit ('\\' :: 'u' :: a :: b :: c2 :: d :: l) = .unit (Char.ofNat n) l := by
  have step : nextStrUnit ('\\' :: 'u' :: a :: b :: c2 :: d :: l) =
      (match hexQuad a b c2 d with
       | none => StrUnit.bad
       | some n =>
         if n < 0xD800 || 0xDFFF < n then .unit (Char.ofNat n) l
         else if n ≤ 0xDBFF then nextStrUnitLow n l
         else .bad) := rfl
  rw [step, hq]
  have hcond : (decide (n < 0xD800) || decide (0xDFFF < n)) = true := by
    simp
    omega
  simp only [hcond, if_true]

/-- Reading one escaped character back yields exactly that character. -/
theorem nextStrUnit_escape (c : Char) (l : List Char) :
    nextStrUnit (escapeJChar c ++ l) = .unit c l := by
  unfold escapeJChar
  split_ifs with h1 h2 h3 h4 h5 h6 h7 hlt
  · subst h1; rfl
  · subst h2; rfl
  · subst h3; rfl
  · subst h4; rfl
  · subst h5; rfl
  · subst h6; rfl
  · subst h7; rfl
  · simp only [List.cons_append, List.nil_append]
    rw [nextStrUnit_u_low _ _ _ _ c.toNat l (hexQuad_00 c hlt) (by omega),
      Char.ofNat_toNat]
  · simp only [List.cons_append, List.nil_append]
    show (if c = '"' then StrUnit.close l
      else if c = '\\' then _
      else if c.toNat < 0x20 then StrUnit.bad
      else StrUnit.unit c l) = StrUnit.unit c l
    rw [if_neg h1, if_neg h2, if_neg hlt]

/-- The escape of any character is nonempty. -/
theorem escapeJChar_length_pos (c : Char) : 1 ≤ (escapeJChar c).length := by
  unfold escapeJChar
  split_ifs <;> simp

/-- The string-body loop reads an escaped rendering back, given enough fuel. -/
theorem parseJStrAuxF_emit (cs : List Char) : ∀ (acc rest : List Char) (fuel : Nat),
    (cs.flatMap escapeJChar).length < fuel →
    parseJStrAuxF fuel acc (cs.flatMap escapeJChar ++ '"' :: rest) =
      some (⟨acc.reverse ++ cs⟩, rest) := by
  induction cs with
  | nil =>
      intro acc rest fuel hf
      cases fuel with
      | zero => omega
      | succ f =>
          simp only [List.flatMap_nil, List.nil_append, parseJStrAuxF]
          rw [show nextStrUnit ('"' :: rest) = .close rest from rfl]
          simp
  | cons c cs ih =>
      intro acc rest fuel hf
      cases fuel with
      | zero => omega
      | succ f =>
          rw [List.flatMap_cons, List.append_assoc]
          simp only [parseJStrAuxF, nextStrUnit_escape]
          rw [ih (c :: acc) rest f (by
            have := escapeJChar_length_pos c
            simp only [List.flatMap_cons, List.length_append] at hf
            omega)]
          simp

/-- The string codec round-trip. -/
theorem parseJStrAux_emit (s : String) (rest : List Char) :
    parseJStrAux [] (s.data.flatMap escapeJChar ++ '"' :: rest) = some (s, rest) := by
  unfold parseJStrAux
  rw [parseJStrAuxF_emit s.data [] rest _ (by simp [List.length_append]; omega)]
  simp

/-! ## C9 groundwork: canonical values -/

/-- A canonical exact decimal: what `String(n)` prints parses back to the
    same pair — zero is `(0, 0)`, otherwise no trailing zero against a
    negative exponent, no positive exponent, and within the
    double-exactness range `|m| ≤ 2^53` of the source's runtime numbers. -/
def canonNum (m e : Int) : Bool :=
  decide (m.natAbs ≤ 2 ^ 53) &&
    (if m = 0 then decide (e = 0)
     else decide (e ≤ 0) && (decide (e = 0) || decide (m % 10 ≠ 0)))

/-- No key occurs twice. -/
def noDupKeys : List String → Bool
  | [] => true
  | k :: ks => !(ks.contains k) && noDupKeys ks

mutual

/-- A canonical (JSON-serializable, normal-form) value: canonical numbers,
    no named array properties, no duplicate object keys. -/
def canonJ : JValue → Bool
  | .null => true
  | .bool _ => true
  | .num m e => canonNum m e
  | .str _ => true
  | .arr es ps => ps.isEmpty && canonJL es
  | .obj fs => noDupKeys (fs.map Prod.fst) && canonJF fs

/-- All elements canonical. -/
def canonJL : List JValue → Bool
  | [] => true
  | v :: vs => canonJ v && canonJL vs

/-- All field values canonical. -/
def canonJF : List (String × JValue) → Bool
  | [] => true
  | kv :: fs => canonJ kv.2 && canonJF fs

end

/-- The head of the text that may legally follow an emitted value inside a
    rendered JSON document: nothing, a comma, or a closing bracket. -/
def sepHead : List Char → Bool
  | [] => true
  | c :: _ => c == ',' || c == ']' || c == '}'

theorem sepHead_elim (l : List Char) (h : sepHead l = true) :
    l = [] ∨ ∃ t, l = ',' :: t ∨ l = ']' :: t ∨ l = '}' :: t := by
  cases l with
  | nil => exact Or.inl rfl
  | cons c t =>
      simp only [sepHead, Bool.or_eq_true, beq_iff_eq] at h
      rcases h with (h | h) | h <;> subst h
      · exact Or.inr ⟨t, Or.inl rfl⟩
      · exact Or.inr ⟨t, Or.inr (Or.inl rfl)⟩
      · exact Or.inr ⟨t, Or.inr (Or.inr rfl)⟩

theorem isDigitC_elim (c : Char) (h : isDigitC c = true) :
    c = '0' ∨ c = '1' ∨ c = '2' ∨ c = '3' ∨ c = '4' ∨
    c = '5' ∨ c = '6' ∨ c = '7' ∨ c = '8' ∨ c = '9' := by
  simp only [isDigitC, Bool.and_eq_true, decide_eq_true_eq] at h
  obtain ⟨h1, h2⟩ := h
  have hn1 : 48 ≤ c.toNat := h1
  have hn2 : c.toNat ≤ 57 := h2
  have hoc := Char.ofNat_toNat c
  have hd : c.toNat = 48 ∨ c.toNat = 49 ∨ c.toNat = 50 ∨ c.toNat = 51 ∨ c.toNat = 52 ∨
      c.toNat = 53 ∨ c.toNat = 54 ∨ c.toNat = 55 ∨ c.toNat = 56 ∨ c.toNat = 57 := by omega
  rcases hd with h | h | h | h | h | h | h | h | h | h <;> rw [h] at hoc
  · exact Or.inl hoc.symm
  · exact Or.inr (Or.inl hoc.symm)
  · exact Or.inr (Or.inr (Or.inl hoc.symm))
  · exact Or.inr (Or.inr (Or.inr (Or.inl hoc.symm)))
  · exact Or.inr (Or.inr (Or.inr (Or.inr (Or.inl hoc.symm))))
  · exact Or.inr (Or.inr (Or.inr (Or.inr (Or.inr (Or.inl hoc.symm)))))
  · exact Or.inr (Or.inr (Or.inr (Or.inr (Or.inr (Or.inr (Or.inl hoc.symm))))))
  · exact Or.inr (Or.inr (Or.inr (Or.inr (Or.inr (Or.inr (Or.inr (Or.inl hoc.symm)))))))
  · exact Or.inr (Or.inr (Or.inr (Or.inr (Or.inr (Or.inr (Or.inr (Or.inr (Or.inl hoc.symm))))))))
  · exact Or.inr (Or.inr (Or.inr (Or.inr (Or.inr (Or.inr (Or.inr (Or.inr (Or.inr hoc.symm))))))))

theorem isJsonWs_of_digit (c : Char) (h : isDigitC c = true) : isJsonWs c = false := by
  rcases isDigitC_elim c h with h | h | h | h | h | h | h | h | h | h <;> subst h <;> decide

theorem digitChar10_toNat (k : Nat) : (digitChar10 k).toNat = 48 + k % 10 := by
  have h : k % 10 < 10 := Nat.mod_lt _ (by omega)
  unfold digitChar10
  generalize k % 10 = r at h ⊢
  interval_cases r <;> decide

theorem isDigitC_digitChar10 (k : Nat) : isDigitC (digitChar10 k) = true := by
  have h : k % 10 < 10 := Nat.mod_lt _ (by omega)
  unfold digitChar10
  generalize k % 10 = r at h ⊢
  interval_cases r <;> decide

theorem natChars_digits (n : Nat) : ∀ c ∈ natChars n, isDigitC c = true := by
  induction n using Nat.strong_induction_on with
  | _ n ih =>
      rw [natChars_unfold]
      by_cases h10 : n < 10
      · simp only [if_pos h10, List.mem_singleton]
        rintro c rfl
        exact isDigitC_digitChar10 n
      · simp only [if_neg h10, List.mem_append, List.mem_singleton]
        rintro c (hc | rfl)
        · exact ih (n / 10) (by omega) c hc
        · exact isDigitC_digitChar10 n

theorem natChars_ne_nil (n : Nat) : natChars n ≠ [] := by
  rw [natChars_unfold]
  by_cases h10 : n < 10
  · simp [h10]
  · simp [h10]

theorem digitRun_foldl (ds : List Char) : ∀ a : Nat,
    ds.foldl (fun a c => a * 10 + (c.toNat - '0'.toNat)) a =
      a * 10 ^ ds.length + digitRunVal ds := by
  induction ds with
  | nil => intro a; simp [digitRunVal]
  | cons c t ih =>
      intro a
      simp only [List.foldl_cons, digitRunVal] at ih ⊢
      rw [ih (a * 10 + (c.toNat - '0'.toNat)), ih (0 * 10 + (c.toNat - '0'.toNat))]
      simp only [List.length_cons, pow_succ]
      ring

theorem digitRunVal_append (ds es : List Char) :
    digitRunVal (ds ++ es) = digitRunVal ds * 10 ^ es.length + digitRunVal es := by
  unfold digitRunVal
  rw [List.foldl_append]
  exact digitRun_foldl es _

theorem digitRunVal_natChars (n : Nat) : digitRunVal (natChars n) = n := by
  induction n using Nat.strong_induction_on with
  | _ n ih =>
      rw [natChars_unfold]
      by_cases h10 : n < 10
      · simp only [if_pos h10]
        show 0 * 10 + ((digitChar10 n).toNat - '0'.toNat) = n
        rw [digitChar10_toNat, show '0'.toNat = 48 from rfl]
        omega
      · simp only [if_neg h10]
        rw [digitRunVal_append, ih (n / 10) (by omega)]
        show n / 10 * 10 ^ 1 + (0 * 10 + ((digitChar10 n).toNat - '0'.toNat)) = n
        rw [digitChar10_toNat, show '0'.toNat = 48 from rfl]
        omega

theorem digitRunVal_zeros (j : Nat) (ds : List Char) :
    digitRunVal (List.replicate j '0' ++ ds) = digitRunVal ds := by
  induction j with
  | zero => simp
  | succ j ih =>
      rw [List.replicate_succ, List.cons_append]
      show (List.replicate j '0' ++ ds).foldl _ (0 * 10 + ('0'.toNat - '0'.toNat)) = _
      rw [show 0 * 10 + ('0'.toNat - '0'.toNat) = 0 from by decide]
      exact ih

theorem natChars_head_ne_zero (n : Nat) (h : 1 ≤ n) : (natChars n).head? ≠ some '0' := by
  induction n using Nat.strong_induction_on with
  | _ n ih =>
      rw [natChars_unfold]
      by_cases h10 : n < 10
      · simp only [if_pos h10, List.head?_cons]
        intro hc
        have := congrArg Char.toNat (Option.some.inj hc)
        rw [digitChar10_toNat, show '0'.toNat = 48 from rfl] at this
        omega
      · simp only [if_neg h10]
        obtain ⟨c, t, hct⟩ := List.exists_cons_of_ne_nil (natChars_ne_nil (n / 10))
        rw [hct, List.cons_append, List.head?_cons]
        have := ih (n / 10) (by omega) (by omega)
        rw [hct, List.head?_cons] at this
        exact this

theorem takeDigitRun_cons_not (c : Char) (t : List Char) (h : isDigitC c = false) :
    takeDigitRun (c :: t) = ([], c :: t) := by
  simp [takeDigitRun, h]

theorem takeDigitRun_sep (l : List Char) (h : sepHead l = true) :
    takeDigitRun l = ([], l) := by
  rcases sepHead_elim l h with rfl | ⟨t, rfl | rfl | rfl⟩
  · rfl
  · exact takeDigitRun_cons_not _ _ (by decide)
  · exact takeDigitRun_cons_not _ _ (by decide)
  · exact takeDigitRun_cons_not _ _ (by decide)

theorem takeDigitRun_digits (ds : List Char) (hd : ∀ c ∈ ds, isDigitC c = true) :
    ∀ r : List Char, takeDigitRun r = ([], r) → takeDigitRun (ds ++ r) = (ds, r) := by
  induction ds with
  | nil => intro r hr; simpa using hr
  | cons c t ih =>
      intro r hr
      rw [List.cons_append]
      simp only [takeDigitRun]
      rw [ih (fun x hx => hd x (List.mem_cons_of_mem c hx)) r hr,
        if_pos (hd c (List.mem_cons_self c t))]

theorem parseJNumTail_sep (neg : Bool) (ids fds : List Char) (cs : List Char)
    (h : sepHead cs = true) :
    parseJNumTail neg ids fds cs =
      some ((if neg then -((digitRunVal (ids ++ fds) : Nat) : Int)
             else ((digitRunVal (ids ++ fds) : Nat) : Int),
             -(fds.length : Int)), cs) := by
  rcases sepHead_elim cs h with rfl | ⟨t, rfl | rfl | rfl⟩ <;> rfl

theorem parseJNumBody_int (neg : Bool) (ids rest : List Char)
    (hids : ∀ c ∈ ids, isDigitC c = true) (hne : ids ≠ [])
    (hguard : (1 < ids.length && ids.head? == some '0') = false)
    (hr : sepHead rest = true) :
    parseJNumBody neg (ids ++ rest) =
      some ((if neg then -((digitRunVal ids : Nat) : Int)
             else ((digitRunVal ids : Nat) : Int), 0), rest) := by
  unfold parseJNumBody
  rw [takeDigitRun_digits ids hids rest (takeDigitRun_sep rest hr)]
  show (if ids.isEmpty = true then none
        else
          if (decide (1 < ids.length) && ids.head? == some '0') = true then none
          else
            match rest with
            | '.' :: r =>
              match takeDigitRun r with
              | (fds2, cs3) =>
                  if fds2.isEmpty = true then none else parseJNumTail neg ids fds2 cs3
            | x => parseJNumTail neg ids [] rest) = _
  rw [show ids.isEmpty = false from by simp [hne], hguard]
  simp only [Bool.false_eq_true, if_false]
  rcases sepHead_elim rest hr with rfl | ⟨t, rfl | rfl | rfl⟩ <;>
    rw [parseJNumTail_sep neg ids [] _ (by rfl)] <;>
    simp

theorem parseJNumBody_frac (neg : Bool) (ids fds rest : List Char)
    (hids : ∀ c ∈ ids, isDigitC c = true) (hfds : ∀ c ∈ fds, isDigitC c = true)
    (hne : ids ≠ []) (hguard : (1 < ids.length && ids.head? == some '0') = false)
    (hfne : fds ≠ []) (hr : sepHead rest = true) :
    parseJNumBody neg (ids ++ '.' :: (fds ++ rest)) =
      some ((if neg then -((digitRunVal (ids ++ fds) : Nat) : Int)
             else ((digitRunVal (ids ++ fds) : Nat) : Int),
             -(fds.length : Int)), rest) := by
  unfold parseJNumBody
  rw [takeDigitRun_digits ids hids ('.' :: (fds ++ rest))
    (takeDigitRun_cons_not '.' _ (by decide))]
  show (if ids.isEmpty = true then none
        else
          if (decide (1 < ids.length) && ids.head? == some '0') = true then none
          else
            match '.' :: (fds ++ rest) with
            | '.' :: r =>
              match takeDigitRun r with
              | (fds2, cs3) =>
                  if fds2.isEmpty = true then none else parseJNumTail neg ids fds2 cs3
            | x => parseJNumTail neg ids [] ('.' :: (fds ++ rest))) = _
  rw [show ids.isEmpty = false from by simp [hne], hguard]
  simp only [Bool.false_eq_true, if_false]
  show (match takeDigitRun (fds ++ rest) with
        | (fds2, cs3) =>
            if fds2.isEmpty = true then none else parseJNumTail neg ids fds2 cs3) = _
  rw [takeDigitRun_digits fds hfds rest (takeDigitRun_sep rest hr)]
  show (if fds.isEmpty = true then none else parseJNumTail neg ids fds rest) = _
  rw [show fds.isEmpty = false from by simp [hfne]]
  simp only [Bool.false_eq_true, if_false]
  exact parseJNumTail_sep neg ids fds rest hr

theorem parseJNum_digit (c : Char) (t : List Char) (h : isDigitC c = true) :
    parseJNum (c :: t) = parseJNumBody false (c :: t) := by
  rcases isDigitC_elim c h with h | h | h | h | h | h | h | h | h | h <;> subst h <;> rfl

theorem canonNum_fix (m e : Int) (hc : canonNum m e = true) : normNum m e = (m, e) := by
  unfold canonNum at hc
  rw [normNum_unfold]
  by_cases hm : m = 0
  · subst hm
    rw [if_pos (rfl : (0:Int) = 0)] at hc
    simp only [Bool.and_eq_true, decide_eq_true_eq] at hc
    rw [if_pos (rfl : (0:Int) = 0), hc.2]
  · rw [if_neg hm] at hc
    simp only [Bool.and_eq_true, Bool.or_eq_true, decide_eq_true_eq] at hc
    rw [if_neg hm, if_neg]
    rintro ⟨hlt, hmod⟩
    rcases hc.2.2 with h0 | h10
    · omega
    · exact h10 hmod

theorem canonNum_e_nonpos (m e : Int) (hc : canonNum m e = true) : e ≤ 0 := by
  unfold canonNum at hc
  by_cases hm : m = 0
  · rw [if_pos hm] at hc
    simp only [Bool.and_eq_true, decide_eq_true_eq] at hc
    omega
  · rw [if_neg hm] at hc
    simp only [Bool.and_eq_true, Bool.or_eq_true, decide_eq_true_eq] at hc
    exact hc.2.1

theorem canonNum_ne_zero (m e : Int) (hc : canonNum m e = true) (he : e ≠ 0) : m ≠ 0 := by
  intro hm0
  unfold canonNum at hc
  rw [if_pos hm0] at hc
  simp only [Bool.and_eq_true, decide_eq_true_eq] at hc
  exact he hc.2

theorem natChars_guard (n : Nat) :
    (1 < (natChars n).length && (natChars n).head? == some '0') = false := by
  by_cases hn : n = 0
  · subst hn; decide
  · have := natChars_head_ne_zero n (by omega)
    simp [this]

theorem parseJNum_emit (m e : Int) (rest : List Char)
    (hc : canonNum m e = true) (hr : sepHead rest = true) :
    parseJNum (numChars m e ++ rest) = some ((m, e), rest) := by
  have hfix := canonNum_fix m e hc
  have hele := canonNum_e_nonpos m e hc
  unfold numChars
  rw [hfix]
  dsimp only
  by_cases h0e : 0 ≤ e
  · have he : e = 0 := le_antisymm hele h0e
    subst he
    rw [if_pos (le_refl (0:Int))]
    simp only [Int.toNat_zero, List.replicate_zero, List.append_nil]
    by_cases hm : m < 0
    · rw [if_pos hm]
      simp only [List.append_assoc, List.cons_append, List.nil_append]
      rw [show parseJNum ('-' :: (natChars m.natAbs ++ rest)) =
        parseJNumBody true (natChars m.natAbs ++ rest) from rfl]
      rw [parseJNumBody_int true (natChars m.natAbs) rest (natChars_digits _)
        (natChars_ne_nil _) (natChars_guard _) hr]
      rw [digitRunVal_natChars]
      simp only [eq_self_iff_true, and_true, Option.some.injEq, Prod.mk.injEq, if_true]
      omega
    · rw [if_neg hm]
      simp only [List.append_assoc, List.cons_append, List.nil_append]
      obtain ⟨c, t, hct⟩ := List.exists_cons_of_ne_nil (natChars_ne_nil m.natAbs)
      have hcd : isDigitC c = true :=
        natChars_digits m.natAbs c (by rw [hct]; exact List.mem_cons_self c t)
      rw [hct, List.cons_append]
      rw [parseJNum_digit c _ hcd]
      rw [← List.cons_append, ← hct]
      rw [parseJNumBody_int false (natChars m.natAbs) rest (natChars_digits _)
        (natChars_ne_nil _) (natChars_guard _) hr]
      rw [digitRunVal_natChars]
      simp only [eq_self_iff_true, and_true, Option.some.injEq, Prod.mk.injEq,
        Bool.false_eq_true, if_false]
      omega
  · rw [if_neg h0e]
    have hmne : m ≠ 0 := canonNum_ne_zero m e hc (by omega)
    have hn1 : 1 ≤ m.natAbs := by omega
    obtain ⟨c, t, hct⟩ := List.exists_cons_of_ne_nil (natChars_ne_nil m.natAbs)
    have hdsd : ∀ x ∈ natChars m.natAbs, isDigitC x = true := natChars_digits m.natAbs
    have hcd : isDigitC c = true := hdsd c (by rw [hct]; exact List.mem_cons_self c t)
    have hcne : c ≠ '0' := by
      intro hcz
      apply natChars_head_ne_zero m.natAbs hn1
      rw [hct, List.head?_cons, hcz]
    set ds := natChars m.natAbs with hds
    set k := (-e).toNat with hk
    have hk1 : 1 ≤ k := by omega
    by_cases hkl : k < ds.length
    · rw [if_pos hkl]
      have htk : ds.take (ds.length - k) = c :: t.take (ds.length - k - 1) := by
        rw [hct] at hkl ⊢
        simp only [List.length_cons] at hkl ⊢
        nth_rewrite 1 [show t.length + 1 - k = (t.length + 1 - k - 1) + 1 from by omega]
        rw [List.take_succ_cons]
      have hguard : (1 < (ds.take (ds.length - k)).length &&
          (ds.take (ds.length - k)).head? == some '0') = false := by
        rw [htk, List.head?_cons]
        simp [hcne]
      have hdne : ds.drop (ds.length - k) ≠ [] := by
        intro hnil
        have := congrArg List.length hnil
        rw [List.length_drop, List.length_nil] at this
        omega
      have htkd : ∀ x ∈ ds.take (ds.length - k), isDigitC x = true :=
        fun x hx => hdsd x (List.mem_of_mem_take hx)
      have hdrd : ∀ x ∈ ds.drop (ds.length - k), isDigitC x = true :=
        fun x hx => hdsd x (List.mem_of_mem_drop hx)
      have htkne : ds.take (ds.length - k) ≠ [] := by rw [htk]; simp
      by_cases hm : m < 0
      · rw [if_pos hm]
        simp only [List.append_assoc, List.cons_append, List.nil_append]
        rw [show parseJNum ('-' :: (ds.take (ds.length - k) ++
            '.' :: (ds.drop (ds.length - k) ++ rest))) =
          parseJNumBody true (ds.take (ds.length - k) ++
            '.' :: (ds.drop (ds.length - k) ++ rest)) from rfl]
        rw [parseJNumBody_frac true _ _ rest htkd hdrd htkne hguard hdne hr]
        rw [List.take_append_drop, digitRunVal_natChars, List.length_drop]
        simp only [eq_self_iff_true, and_true, Option.some.injEq, Prod.mk.injEq, if_true]
        omega
      · rw [if_neg hm]
        simp only [List.append_assoc, List.cons_append, List.nil_append]
        rw [htk, List.cons_append]
        rw [parseJNum_digit c _ hcd]
        rw [← List.cons_append, ← htk]
        rw [parseJNumBody_frac false _ _ rest htkd hdrd htkne hguard hdne hr]
        rw [List.take_append_drop, digitRunVal_natChars, List.length_drop]
        simp only [eq_self_iff_true, and_true, Option.some.injEq, Prod.mk.injEq,
          Bool.false_eq_true, if_false]
        omega
    · rw [if_neg hkl]
      have hrep : ∀ x ∈ List.replicate (k - ds.length) '0' ++ ds, isDigitC x = true := by
        intro x hx
        rcases List.mem_append.1 hx with hx | hx
        · rw [List.eq_of_mem_replicate hx]; decide
        · exact hdsd x hx
      have hfne : List.replicate (k - ds.length) '0' ++ ds ≠ [] := by
        intro hnil
        have := congrArg List.length hnil
        simp only [List.length_append, List.length_replicate, List.length_nil] at this
        rw [hct, List.length_cons] at this
        omega
      have hzeros : ['0'] ++ (List.replicate (k - ds.length) '0' ++ ds) =
          List.replicate (k - ds.length + 1) '0' ++ ds := by
        rw [List.replicate_succ]
        simp
      by_cases hm : m < 0
      · rw [if_pos hm]
        simp only [List.append_assoc, List.cons_append, List.nil_append]
        rw [← List.append_assoc (List.replicate (k - ds.length) '0') ds rest]
        show parseJNumBody true
          (['0'] ++ '.' :: ((List.replicate (k - ds.length) '0' ++ ds) ++ rest)) =
          some ((m, e), rest)
        rw [parseJNumBody_frac true ['0'] _ rest
          (by intro x hx; simp at hx; subst hx; decide)
          hrep (by simp) (by decide) hfne hr]
        rw [hzeros, digitRunVal_zeros, digitRunVal_natChars]
        simp only [eq_self_iff_true, and_true, Option.some.injEq, Prod.mk.injEq, if_true,
          List.length_append, List.length_replicate]
        omega
      · rw [if_neg hm]
        simp only [List.append_assoc, List.cons_append, List.nil_append]
        rw [← List.append_assoc (List.replicate (k - ds.length) '0') ds rest]
        rw [parseJNum_digit '0' _ (by decide)]
        show parseJNumBody false
          (['0'] ++ '.' :: ((List.replicate (k - ds.length) '0' ++ ds) ++ rest)) =
          some ((m, e), rest)
        rw [parseJNumBody_frac false ['0'] _ rest
          (by intro x hx; simp at hx; subst hx; decide)
          hrep (by simp) (by decide) hfne hr]
        rw [hzeros, digitRunVal_zeros, digitRunVal_natChars]
        simp only [eq_self_iff_true, and_true, Option.some.injEq, Prod.mk.injEq,
          Bool.false_eq_true, if_false, List.length_append, List.length_replicate]
        omega

theorem take_head (c : Char) (t : List Char) (j : Nat) (h : 1 ≤ j) :
    (c :: t).take j = c :: t.take (j - 1) := by
  nth_rewrite 1 [show j = (j - 1) + 1 from by omega]
  rw [List.take_succ_cons]

theorem numChars_head (m e : Int) :
    ∃ c t, numChars m e = c :: t ∧ (isDigitC c = true ∨ c = '-') := by
  unfold numChars
  dsimp only
  obtain ⟨c, t, hct⟩ := List.exists_cons_of_ne_nil (natChars_ne_nil (normNum m e).1.natAbs)
  have hcd : isDigitC c = true :=
    natChars_digits _ c (by rw [hct]; exact List.mem_cons_self c t)
  by_cases hmn : (normNum m e).1 < 0
  · rw [if_pos hmn]
    by_cases h0e : 0 ≤ (normNum m e).2
    · rw [if_pos h0e]
      simp only [List.append_assoc, List.cons_append, List.nil_append]
      exact ⟨'-', _, rfl, Or.inr rfl⟩
    · rw [if_neg h0e]
      by_cases hkl : (-(normNum m e).2).toNat < (natChars (normNum m e).1.natAbs).length
      · rw [if_pos hkl]
        simp only [List.append_assoc, List.cons_append, List.nil_append]
        exact ⟨'-', _, rfl, Or.inr rfl⟩
      · rw [if_neg hkl]
        simp only [List.append_assoc, List.cons_append, List.nil_append]
        exact ⟨'-', _, rfl, Or.inr rfl⟩
  · rw [if_neg hmn]
    by_cases h0e : 0 ≤ (normNum m e).2
    · rw [if_pos h0e]
      rw [hct]
      simp only [List.append_assoc, List.cons_append, List.nil_append]
      exact ⟨c, _, rfl, Or.inl hcd⟩
    · rw [if_neg h0e]
      by_cases hkl : (-(normNum m e).2).toNat < (natChars (normNum m e).1.natAbs).length
      · rw [if_pos hkl]
        rw [hct]
        rw [take_head c t ((c :: t).length - (-(normNum m e).2).toNat)
          (by rw [hct] at hkl; omega)]
        simp only [List.append_assoc, List.cons_append, List.nil_append]
        exact ⟨c, _, rfl, Or.inl hcd⟩
      · rw [if_neg hkl]
        simp only [List.append_assoc, List.cons_append, List.nil_append]
        exact ⟨'0', _, rfl, Or.inl (by decide)⟩

theorem digit_head_ok (c : Char) (h : isDigitC c = true ∨ c = '-') :
    isJsonWs c = false ∧ c ≠ ']' := by
  rcases h with h | rfl
  · rcases isDigitC_elim c h with rfl | rfl | rfl | rfl | rfl | rfl | rfl | rfl | rfl | rfl <;>
      exact ⟨by decide, by decide⟩
  · exact ⟨by decide, by decide⟩

theorem emitJ_head (v : JValue) :
    ∃ c t, emitJ v = c :: t ∧ isJsonWs c = false ∧ c ≠ ']' := by
  cases v with
  | null => exact ⟨'n', _, rfl, by decide, by decide⟩
  | bool b =>
      cases b with
      | false => exact ⟨'f', _, rfl, by decide, by decide⟩
      | true => exact ⟨'t', _, rfl, by decide, by decide⟩
  | num m e =>
      obtain ⟨c, t, hct, hd⟩ := numChars_head m e
      obtain ⟨h1, h2⟩ := digit_head_ok c hd
      exact ⟨c, t, hct, h1, h2⟩
  | str s => exact ⟨'"', _, rfl, by decide, by decide⟩
  | arr es ps => exact ⟨'[', _, rfl, by decide, by decide⟩
  | obj fs => exact ⟨'{', _, rfl, by decide, by decide⟩

theorem emitJ_length_pos (v : JValue) : 1 ≤ (emitJ v).length := by
  obtain ⟨c, t, hct, _, _⟩ := emitJ_head v
  rw [hct, List.length_cons]
  omega

theorem emitElems_head (v : JValue) (vs : List JValue) :
    ∃ c t, emitElems (v :: vs) = c :: t ∧ isJsonWs c = false ∧ c ≠ ']' := by
  obtain ⟨c, t, hct, h1, h2⟩ := emitJ_head v
  cases vs with
  | nil => exact ⟨c, t, hct, h1, h2⟩
  | cons w ws =>
      refine ⟨c, t ++ ',' :: emitElems (w :: ws), ?_, h1, h2⟩
      show emitJ v ++ ',' :: emitElems (w :: ws) = _
      rw [hct, List.cons_append]

theorem setField_fresh (fs : List (String × JValue)) (k : String) (v : JValue)
    (h : ∀ p ∈ fs, p.1 ≠ k) : setField fs k v = fs ++ [(k, v)] := by
  induction fs with
  | nil => rfl
  | cons p rest ih =>
      obtain ⟨k', v'⟩ := p
      simp only [setField]
      rw [if_neg (h (k', v') (List.mem_cons_self _ _)), ih
        (fun q hq => h q (List.mem_cons_of_mem _ hq))]
      rfl

theorem foldl_setField_fresh (ms : List (String × JValue)) :
    ∀ acc : List (String × JValue),
      noDupKeys (ms.map Prod.fst) = true →
      (∀ p ∈ ms, ∀ q ∈ acc, p.1 ≠ q.1) →
      ms.foldl (fun acc kv => setField acc kv.1 kv.2) acc = acc ++ ms := by
  induction ms with
  | nil => intro acc _ _; simp
  | cons kv ms ih =>
      intro acc hnd hdisj
      simp only [List.map_cons, noDupKeys, Bool.and_eq_true, Bool.not_eq_true'] at hnd
      have hnotin : kv.1 ∉ ms.map Prod.fst := by simpa using hnd.1
      simp only [List.foldl_cons]
      have hfresh : setField acc kv.1 kv.2 = acc ++ [kv] := by
        rw [setField_fresh acc kv.1 kv.2
          (fun q hq => (hdisj kv (List.mem_cons_self _ _) q hq).symm)]
      rw [hfresh, ih (acc ++ [kv]) hnd.2 ?_]
      · rw [List.append_assoc]
        rfl
      · intro p hp q hq
        rcases List.mem_append.1 hq with hq | hq
        · exact hdisj p (List.mem_cons_of_mem _ hp) q hq
        · rw [List.mem_singleton.1 hq]
          intro hpk
          exact hnotin (hpk ▸ List.mem_map_of_mem Prod.fst hp)

theorem buildObj_nodup (fs : List (String × JValue))
    (h : noDupKeys (fs.map Prod.fst) = true) : buildObj fs = fs := by
  unfold buildObj
  rw [foldl_setField_fresh fs [] h (by intro p _ q hq; simp at hq)]
  rfl

theorem parseJVal_num_route (fuel : Nat) (c : Char) (t : List Char)
    (hd : isDigitC c = true ∨ c = '-') :
    parseJVal (fuel + 1) (c :: t) =
      (match parseJNum (c :: t) with
       | some (n, r') => some (.num n.1 n.2, r')
       | none => none) := by
  rcases hd with h | rfl
  · rcases isDigitC_elim c h with rfl | rfl | rfl | rfl | rfl | rfl | rfl | rfl | rfl | rfl <;>
      rfl
  · rfl

mutual

/-- Parsing a rendered canonical value back, with any separator-headed
    remainder, returns exactly that value. -/
theorem rt_val : ∀ (v : JValue) (fuel : Nat) (rest : List Char),
    canonJ v = true → sepHead rest = true → (emitJ v).length < fuel →
    parseJVal fuel (emitJ v ++ rest) = some (v, rest)
  | .null, fuel, rest, _, _, hf => by
      cases fuel with
      | zero => exact absurd hf (by omega)
      | succ f => rfl
  | .bool b, fuel, rest, _, _, hf => by
      cases fuel with
      | zero => exact absurd hf (by omega)
      | succ f => cases b <;> rfl
  | .num m e, fuel, rest, hc, hr, hf => by
      cases fuel with
      | zero => exact absurd hf (by omega)
      | succ f =>
          have hcn : canonNum m e = true := hc
          obtain ⟨c, t, hct, hd⟩ := numChars_head m e
          have e1 : emitJ (.num m e) ++ rest = c :: (t ++ rest) := by
            show numChars m e ++ rest = _
            rw [hct, List.cons_append]
          rw [e1, parseJVal_num_route f c (t ++ rest) hd]
          rw [show (c :: (t ++ rest)) = numChars m e ++ rest from by rw [hct, List.cons_append]]
          rw [parseJNum_emit m e rest hcn hr]
  | .str s, fuel, rest, _, _, hf => by
      cases fuel with
      | zero => exact absurd hf (by omega)
      | succ f =>
          have e1 : emitJ (.str s) ++ rest =
              '"' :: (s.data.flatMap escapeJChar ++ '"' :: rest) := by
            show ('"' :: (s.data.flatMap escapeJChar ++ ['"'])) ++ rest = _
            simp only [List.append_assoc, List.cons_append, List.nil_append]
          rw [e1]
          have e2 : parseJVal (f + 1) ('"' :: (s.data.flatMap escapeJChar ++ '"' :: rest)) =
              (match parseJStrAux [] (s.data.flatMap escapeJChar ++ '"' :: rest) with
               | some (s2, r2) => some (JValue.str s2, r2)
               | none => none) := rfl
          rw [e2, parseJStrAux_emit s rest]
  | .arr [] ps, fuel, rest, hc, _, hf => by
      cases fuel with
      | zero => exact absurd hf (by omega)
      | succ f =>
          have hc' : ps.isEmpty = true ∧ canonJL [] = true := by
            have h2 : (ps.isEmpty && canonJL []) = true := hc
            simpa using h2
          have hps : ps = [] := by
            cases ps with
            | nil => rfl
            | cons a l => exact absurd hc'.1 (by simp)
          subst hps
          rfl
  | .arr (v :: vs) ps, fuel, rest, hc, _, hf => by
      cases fuel with
      | zero => exact absurd hf (by omega)
      | succ f =>
          have hc' : ps.isEmpty = true ∧ canonJL (v :: vs) = true := by
            have h2 : (ps.isEmpty && canonJL (v :: vs)) = true := hc
            simpa using h2
          have hps : ps = [] := by
            cases ps with
            | nil => rfl
            | cons a l => exact absurd hc'.1 (by simp)
          subst hps
          have e1 : emitJ (.arr (v :: vs) []) ++ rest =
              '[' :: (emitElems (v :: vs) ++ ']' :: rest) := by
            show ('[' :: (emitElems (v :: vs) ++ [']'])) ++ rest = _
            simp only [List.append_assoc, List.cons_append, List.nil_append]
          rw [e1]
          have e2 : parseJVal (f + 1) ('[' :: (emitElems (v :: vs) ++ ']' :: rest)) =
              (match skipJsonWs (emitElems (v :: vs) ++ ']' :: rest) with
               | [] => none
               | c :: r2 =>
                   if c = ']' then some (JValue.arr [] [], r2)
                   else
                     match parseJElems f (c :: r2) with
                     | some (es2, r3) => some (JValue.arr es2 [], r3)
                     | none => none) := rfl
          rw [e2]
          obtain ⟨c, t, hct, hws, hrb⟩ := emitElems_head v vs
          rw [hct, List.cons_append]
          rw [show skipJsonWs (c :: (t ++ ']' :: rest)) = c :: (t ++ ']' :: rest) from by
            simp [skipJsonWs, hws]]
          show (if c = ']' then some (JValue.arr [] [], t ++ ']' :: rest)
                else
                  match parseJElems f (c :: (t ++ ']' :: rest)) with
                  | some (es2, r3) => some (JValue.arr es2 [], r3)
                  | none => none) = some (JValue.arr (v :: vs) [], rest)
          rw [if_neg hrb]
          rw [show (c :: (t ++ ']' :: rest)) = emitElems (v :: vs) ++ ']' :: rest from by
            rw [hct, List.cons_append]]
          have hlen : (emitJ (.arr (v :: vs) [])).length =
              (emitElems (v :: vs)).length + 2 := by
            show ('[' :: (emitElems (v :: vs) ++ [']'])).length = _
            simp
          rw [rt_elems (v :: vs) f rest (by simp) hc'.2 (by omega)]
  | .obj [], fuel, rest, _, _, hf => by
      cases fuel with
      | zero => exact absurd hf (by omega)
      | succ f => rfl
  | .obj (kv :: ms), fuel, rest, hc, _, hf => by
      cases fuel with
      | zero => exact absurd hf (by omega)
      | succ f =>
          have hc' : noDupKeys ((kv :: ms).map Prod.fst) = true ∧ canonJF (kv :: ms) = true := by
            have h2 : (noDupKeys ((kv :: ms).map Prod.fst) && canonJF (kv :: ms)) = true := hc
            simpa using h2
          have e1 : emitJ (.obj (kv :: ms)) ++ rest =
              '{' :: (emitMembers (kv :: ms) ++ '}' :: rest) := by
            show ('{' :: (emitMembers (kv :: ms) ++ ['}'])) ++ rest = _
            simp only [List.append_assoc, List.cons_append, List.nil_append]
          rw [e1]
          have e2 : parseJVal (f + 1) ('{' :: (emitMembers (kv :: ms) ++ '}' :: rest)) =
              (match skipJsonWs (emitMembers (kv :: ms) ++ '}' :: rest) with
               | [] => none
               | c :: r2 =>
                   if c = '}' then some (JValue.obj [], r2)
                   else
                     match parseJMembers f (c :: r2) with
                     | some (ms2, r3) => some (JValue.obj (buildObj ms2), r3)
                     | none => none) := rfl
          rw [e2]
          obtain ⟨tl, htl⟩ : ∃ tl, emitMembers (kv :: ms) = '"' :: tl := by
            cases ms with
            | nil => exact ⟨_, rfl⟩
            | cons kv2 ms2 => exact ⟨_, rfl⟩
          rw [htl, List.cons_append]
          rw [show skipJsonWs ('"' :: (tl ++ '}' :: rest)) =
            '"' :: (tl ++ '}' :: rest) from rfl]
          show (if '"' = '}' then some (JValue.obj [], tl ++ '}' :: rest)
                else
                  match parseJMembers f ('"' :: (tl ++ '}' :: rest)) with
                  | some (ms2, r3) => some (JValue.obj (buildObj ms2), r3)
                  | none => none) = some (JValue.obj (kv :: ms), rest)
          rw [if_neg (by decide)]
          rw [show ('"' :: (tl ++ '}' :: rest)) =
            emitMembers (kv :: ms) ++ '}' :: rest from by rw [htl, List.cons_append]]
          have hlen : (emitJ (.obj (kv :: ms))).length =
              (emitMembers (kv :: ms)).length + 2 := by
            show ('{' :: (emitMembers (kv :: ms) ++ ['}'])).length = _
            simp
          rw [rt_members (kv :: ms) f rest (by simp) hc'.2 (by omega)]
          show some (JValue.obj (buildObj (kv :: ms)), rest) = some (JValue.obj (kv :: ms), rest)
          rw [buildObj_nodup (kv :: ms) hc'.1]
termination_by v _ _ => sizeOf v

/-- Parsing rendered canonical elements followed by the closing bracket. -/
theorem rt_elems : ∀ (es : List JValue) (fuel : Nat) (rest : List Char),
    es ≠ [] → canonJL es = true → (emitElems es).length + 1 < fuel →
    parseJElems fuel (emitElems es ++ ']' :: rest) = some (es, rest)
  | [], _, _, hne, _, _ => absurd rfl hne
  | [v], fuel, rest, _, hc, hf => by
      cases fuel with
      | zero => exact absurd hf (by omega)
      | succ f =>
          have hcv : canonJ v = true ∧ canonJL [] = true := by
            have h2 : (canonJ v && canonJL []) = true := hc
            simpa using h2
          have hfv : (emitJ v).length + 1 < f + 1 := hf
          show parseJElems (f + 1) (emitJ v ++ ']' :: rest) = some ([v], rest)
          simp only [parseJElems]
          rw [rt_val v f (']' :: rest) hcv.1 (by rfl) (by omega)]
          rfl
  | v :: w :: ws, fuel, rest, _, hc, hf => by
      cases fuel with
      | zero => exact absurd hf (by omega)
      | succ f =>
          have hcv : canonJ v = true ∧ canonJL (w :: ws) = true := by
            have h2 : (canonJ v && canonJL (w :: ws)) = true := hc
            simpa using h2
          have hlen : (emitElems (v :: w :: ws)).length =
              (emitJ v).length + 1 + (emitElems (w :: ws)).length := by
            show (emitJ v ++ ',' :: emitElems (w :: ws)).length = _
            simp
            omega
          have e1 : emitElems (v :: w :: ws) ++ ']' :: rest =
              emitJ v ++ ',' :: (emitElems (w :: ws) ++ ']' :: rest) := by
            show (emitJ v ++ ',' :: emitElems (w :: ws)) ++ ']' :: rest = _
            simp only [List.append_assoc, List.cons_append]
          simp only [parseJElems]
          rw [e1]
          rw [rt_val v f (',' :: (emitElems (w :: ws) ++ ']' :: rest)) hcv.1 (by rfl)
            (by omega)]
          show (match parseJElems f (emitElems (w :: ws) ++ ']' :: rest) with
                | some (ws2, r3) => some (v :: ws2, r3)
                | none => none) = some (v :: w :: ws, rest)
          rw [rt_elems (w :: ws) f rest (by simp) hcv.2 (by omega)]
termination_by es _ _ => sizeOf es

/-- Parsing rendered canonical members followed by the closing brace. -/
theorem rt_members : ∀ (fs : List (String × JValue)) (fuel : Nat) (rest : List Char),
    fs ≠ [] → canonJF fs = true → (emitMembers fs).length + 1 < fuel →
    parseJMembers fuel (emitMembers fs ++ '}' :: rest) = some (fs, rest)
  | [], _, _, hne, _, _ => absurd rfl hne
  | [(key, v)], fuel, rest, _, hc, hf => by
      cases fuel with
      | zero => exact absurd hf (by omega)
      | succ f =>
          have hcv : canonJ v = true ∧ canonJF [] = true := by
            have h2 : (canonJ (key, v).2 && canonJF []) = true := hc
            simpa using h2
          have hkey : (emitJStr key).length = (key.data.flatMap escapeJChar).length + 2 := by
            show ('"' :: (key.data.flatMap escapeJChar ++ ['"'])).length = _
            simp
          have hlen : (emitMembers [(key, v)]).length =
              (emitJStr key).length + 1 + (emitJ v).length := by
            show (emitJStr key ++ ':' :: emitJ v).length = _
            simp
            omega
          have e1 : emitMembers [(key, v)] ++ '}' :: rest =
              '"' :: (key.data.flatMap escapeJChar ++
                '"' :: (':' :: (emitJ v ++ '}' :: rest))) := by
            show (emitJStr key ++ ':' :: emitJ v) ++ '}' :: rest = _
            show (('"' :: (key.data.flatMap escapeJChar ++ ['"'])) ++
              ':' :: emitJ v) ++ '}' :: rest = _
            simp only [List.append_assoc, List.cons_append, List.nil_append]
          simp only [parseJMembers]
          rw [e1]
          rw [show skipJsonWs ('"' :: (key.data.flatMap escapeJChar ++
            '"' :: (':' :: (emitJ v ++ '}' :: rest)))) =
            '"' :: (key.data.flatMap escapeJChar ++
              '"' :: (':' :: (emitJ v ++ '}' :: rest))) from rfl]
          show (match parseJStrAux [] (key.data.flatMap escapeJChar ++
                  '"' :: (':' :: (emitJ v ++ '}' :: rest))) with
                | none => none
                | some (k2, r1) =>
                    match skipJsonWs r1 with
                    | [] => none
                    | c :: r2 =>
                        if c = ':' then
                          match parseJVal f r2 with
                          | none => none
                          | some (w, r3) =>
                              match skipJsonWs r3 with
                              | [] => none
                              | c2 :: r4 =>
                                  if c2 = ',' then
                                    match parseJMembers f r4 with
                                    | some (ms2, r5) => some ((k2, w) :: ms2, r5)
                                    | none => none
                                  else if c2 = '}' then some ([(k2, w)], r4)
                                  else none
                        else none) = some ([(key, v)], rest)
          rw [parseJStrAux_emit key (':' :: (emitJ v ++ '}' :: rest))]
          show (match parseJVal f (emitJ v ++ '}' :: rest) with
                | none => none
                | some (w, r3) =>
                    match skipJsonWs r3 with
                    | [] => none
                    | c2 :: r4 =>
                        if c2 = ',' then
                          match parseJMembers f r4 with
                          | some (ms2, r5) => some ((key, w) :: ms2, r5)
                          | none => none
                        else if c2 = '}' then some ([(key, w)], r4)
                        else none) = some ([(key, v)], rest)
          rw [rt_val v f ('}' :: rest) hcv.1 (by rfl) (by omega)]
          rfl
  | (key, v) :: kv2 :: ms2, fuel, rest, _, hc, hf => by
      cases fuel with
      | zero => exact absurd hf (by omega)
      | succ f =>
          have hcv : canonJ v = true ∧ canonJF (kv2 :: ms2) = true := by
            have h2 : (canonJ (key, v).2 && canonJF (kv2 :: ms2)) = true := hc
            simpa using h2
          have hkey : (emitJStr key).length = (key.data.flatMap escapeJChar).length + 2 := by
            show ('"' :: (key.data.flatMap escapeJChar ++ ['"'])).length = _
            simp
          have hlen : (emitMembers ((key, v) :: kv2 :: ms2)).length =
              (emitJStr key).length + 1 + (emitJ v).length + 1 +
                (emitMembers (kv2 :: ms2)).length := by
            show ((emitJStr key ++ ':' :: emitJ v) ++
              ',' :: emitMembers (kv2 :: ms2)).length = _
            simp
            omega
          have e1 : emitMembers ((key, v) :: kv2 :: ms2) ++ '}' :: rest =
              '"' :: (key.data.flatMap escapeJChar ++
                '"' :: (':' :: (emitJ v ++
                  ',' :: (emitMembers (kv2 :: ms2) ++ '}' :: rest)))) := by
            show ((emitJStr key ++ ':' :: emitJ v) ++
              ',' :: emitMembers (kv2 :: ms2)) ++ '}' :: rest = _
            show ((('"' :: (key.data.flatMap escapeJChar ++ ['"'])) ++ ':' :: emitJ v) ++
              ',' :: emitMembers (kv2 :: ms2)) ++ '}' :: rest = _
            simp only [List.append_assoc, List.cons_append, List.nil_append]
          simp only [parseJMembers]
          rw [e1]
          rw [show skipJsonWs ('"' :: (key.data.flatMap escapeJChar ++
            '"' :: (':' :: (emitJ v ++
              ',' :: (emitMembers (kv2 :: ms2) ++ '}' :: rest))))) =
            '"' :: (key.data.flatMap escapeJChar ++
              '"' :: (':' :: (emitJ v ++
                ',' :: (emitMembers (kv2 :: ms2) ++ '}' :: rest)))) from rfl]
          show (match parseJStrAux [] (key.data.flatMap escapeJChar ++
                  '"' :: (':' :: (emitJ v ++
                    ',' :: (emitMembers (kv2 :: ms2) ++ '}' :: rest)))) with
                | none => none
                | some (k2, r1) =>
                    match skipJsonWs r1 with
                    | [] => none
                    | c :: r2 =>
                        if c = ':' then
                          match parseJVal f r2 with
                          | none => none
                          | some (w, r3) =>
                              match skipJsonWs r3 with
                              | [] => none
                              | c2 :: r4 =>
                                  if c2 = ',' then
                                    match parseJMembers f r4 with
                                    | some (ms3, r5) => some ((k2, w) :: ms3, r5)
                                    | none => none
                                  else if c2 = '}' then some ([(k2, w)], r4)
                                  else none
                        else none) = some ((key, v) :: kv2 :: ms2, rest)
          rw [parseJStrAux_emit key (':' :: (emitJ v ++
            ',' :: (emitMembers (kv2 :: ms2) ++ '}' :: rest)))]
          show (match parseJVal f (emitJ v ++
                  ',' :: (emitMembers (kv2 :: ms2) ++ '}' :: rest)) with
                | none => none
                | some (w, r3) =>
                    match skipJsonWs r3 with
                    | [] => none
                    | c2 :: r4 =>
                        if c2 = ',' then
                          match parseJMembers f r4 with
                          | some (ms3, r5) => some ((key, w) :: ms3, r5)
                          | none => none
                        else if c2 = '}' then some ([(key, w)], r4)
                        else none) = some ((key, v) :: kv2 :: ms2, rest)
          rw [rt_val v f (',' :: (emitMembers (kv2 :: ms2) ++ '}' :: rest)) hcv.1
            (by rfl) (by omega)]
          show (match parseJMembers f (emitMembers (kv2 :: ms2) ++ '}' :: rest) with
                | some (ms3, r5) => some ((key, v) :: ms3, r5)
                | none => none) = some ((key, v) :: kv2 :: ms2, rest)
          rw [rt_members (kv2 :: ms2) f rest (by simp) hcv.2 (by omega)]
termination_by fs _ _ => sizeOf fs

end

/-- `JSON.parse ∘ JSON.stringify` is the identity on canonical values. -/
theorem jsonParse_stringify (v : JValue) (hc : canonJ v = true) :
    jsonParse (jsonStringify v) = some v := by
  have h := rt_val v ((emitJ v).length + 1) [] hc rfl (by omega)
  rw [List.append_nil] at h
  show (match parseJVal ((emitJ v).length + 1) (emitJ v) with
        | some (w, r) => if (skipJsonWs r).isEmpty then some w else none
        | none => none) = some v
  rw [h]
  rfl

/-- `trim` is the identity on a string wrapped in non-whitespace delimiters. -/
theorem jsTrim_delim (a b : Char) (L : List Char) (ha : isJsWs a = false)
    (hb : isJsWs b = false) : jsTrim ⟨a :: (L ++ [b])⟩ = ⟨a :: (L ++ [b])⟩ := by
  show (⟨jsTrimL (a :: (L ++ [b]))⟩ : String) = _
  unfold jsTrimL
  rw [show dropJsWs (a :: (L ++ [b])) = a :: (L ++ [b]) from by simp [dropJsWs, ha]]
  rw [show (a :: (L ++ [b])).reverse = b :: (L.reverse ++ [a]) from by simp]
  rw [show dropJsWs (b :: (L.reverse ++ [a])) = b :: (L.reverse ++ [a]) from by
    simp [dropJsWs, hb]]
  rw [show (b :: (L.reverse ++ [a])).reverse = a :: (L ++ [b]) from by simp]

/-- A canonical agent payload as the spec's round-trip sentence describes it:
    `status`, a `result` mapping, and optional `message` and `metadata`. -/
structure CanonicalResponse where
  status : String
  result : List (String × JValue)
  message : Option String := none
  metadata : Option JValue := none

/-- The JSON object a canonical payload denotes. -/
def CanonicalResponse.toJson (c : CanonicalResponse) : JValue :=
  .obj (("status", JValue.str c.status) :: ("result", JValue.obj c.result) ::
    ((match c.message with | some m => [("message", JValue.str m)] | none => []) ++
     (match c.metadata with | some d => [("metadata", d)] | none => [])))

/-- C9: the round-trip for canonical payloads. Stringified, the payload
    parses back on the `direct` strategy and the normalizer reproduces it:
    the status verbatim (both contractual statuses map to themselves), the
    result mapping verbatim (objects are truthy, so the falsy-result guard
    never fires), and `message`/`metadata` exactly as present or absent. -/
theorem c9_canonical_round_trip (c : CanonicalResponse)
    (hst : c.status = "success" ∨ c.status = "error")
    (hc : canonJ (CanonicalResponse.toJson c) = true) :
    normalizeResponse (robustJSONParse (jsonStringify (CanonicalResponse.toJson c))).data =
      { status := c.status, result := .obj c.result,
        message := c.message.map JValue.str, metadata := c.metadata } := by
  obtain ⟨st, res, msg, md⟩ := c
  have htrim : jsTrim (jsonStringify (CanonicalResponse.toJson ⟨st, res, msg, md⟩)) =
      jsonStringify (CanonicalResponse.toJson ⟨st, res, msg, md⟩) := by
    show jsTrim ⟨'{' :: (emitMembers _ ++ ['}'])⟩ = _
    exact jsTrim_delim '{' '}' _ (by decide) (by decide)
  have hparse : jsonParse (jsTrim (jsonStringify (CanonicalResponse.toJson
      ⟨st, res, msg, md⟩))) = some (CanonicalResponse.toJson ⟨st, res, msg, md⟩) := by
    rw [htrim]
    exact jsonParse_stringify _ hc
  rw [robustJSONParse_direct _ _ hparse]
  dsimp only
  have hg1 : jsGet (CanonicalResponse.toJson ⟨st, res, msg, md⟩) "status" =
      some (JValue.str st) := by
    show getField _ "status" = _
    simp [CanonicalResponse.toJson, getField]
  have hg2 : jsGet (CanonicalResponse.toJson ⟨st, res, msg, md⟩) "result" =
      some (JValue.obj res) := by
    show getField _ "result" = _
    simp [CanonicalResponse.toJson, getField]
  have hg3 : jsGet (CanonicalResponse.toJson ⟨st, res, msg, md⟩) "message" =
      msg.map JValue.str := by
    show getField _ "message" = _
    rcases msg with _ | m <;> rcases md with _ | d <;>
      simp [CanonicalResponse.toJson, getField]
  have hg4 : jsGet (CanonicalResponse.toJson ⟨st, res, msg, md⟩) "metadata" = md := by
    show getField _ "metadata" = _
    rcases msg with _ | m <;> rcases md with _ | d <;>
      simp [CanonicalResponse.toJson, getField]
  rw [normalizeResponse_status_result (CanonicalResponse.toJson ⟨st, res, msg, md⟩)
    rfl rfl (by simp [jsHas, hg1]) (by simp [jsHas, hg2])]
  rw [hg1, hg2, hg3, hg4]
  rcases hst with h | h <;>
    simp only at h <;> subst h <;> simp [isErrorStatus, jsTruthy]

/-- C9, witnessed at a payload carrying all four fields. -/
theorem c9_canonical_round_trip_witness :
    canonJ (CanonicalResponse.toJson
      ⟨"success", [("x", .num 5 0)], some "hi", some (.obj [])⟩) = true ∧
    normalizeResponse (robustJSONParse (jsonStringify (CanonicalResponse.toJson
        ⟨"success", [("x", .num 5 0)], some "hi", some (.obj [])⟩))).data =
      { status := "success", result := .obj [("x", .num 5 0)],
        message := some (.str "hi"), metadata := some (.obj []) } :=
  ⟨by decide,
   c9_canonical_round_trip ⟨"success", [("x", .num 5 0)], some "hi", some (.obj [])⟩
     (Or.inl rfl) (by decide)⟩

end WireVerify
